import Mathlib

/-!
Verification of the geometric pipeline in `s3dxrd/utils/postprocessing.py`
(coordinate transform, voxelization, isosurface glue, greedy original-point
projection).

Conventions of the embedding:
* Real-valued numpy scalars are modelled as exact rationals (`ℚ`); the only
  genuinely irrational quantity in the source, `np.linalg.norm(normal)`
  (a square root), is modelled in `ℝ`.
* numpy's `np.around` is round-half-to-even, modelled by `roundEven`.
* Python's `int(...)` truncates toward zero, modelled by `intTrunc`.
* Python `IndexError` / `ValueError` exceptions are modelled by `Except`
  values of type `PyError`.
* The marching-cubes call (`skimage.measure.marching_cubes`) is an external
  library; it is a parameter (`MCOracle`) of the pipeline embedding.
-/

namespace Postprocessing

/-- A 3-d point with exact rational coordinates. -/
abbrev Vec3 : Type := ℚ × ℚ × ℚ

/-- Python exceptions that the modelled code can raise:
`valueError` for numpy reductions over empty arrays (`np.amax` / `np.argmin`),
`indexError` for an out-of-range array index, `typeError` for reading an
array of an unexpected kind from the heap model. -/
inductive PyError : Type where
  | valueError : PyError
  | indexError : PyError
  | typeError : PyError
deriving DecidableEq

/-- numpy `np.around` on a scalar: round half to even. -/
def roundEven (q : ℚ) : ℤ :=
  let f : ℤ := ⌊q⌋
  let r : ℚ := q - f
  if r < 1/2 then f
  else if 1/2 < r then f + 1
  else if Even f then f else f + 1

/-- Python `int(...)` on a float: truncation toward zero. -/
def intTrunc (q : ℚ) : ℤ :=
  if q < 0 then ⌈q⌉ else ⌊q⌋

/-- `np.absolute` on a rational scalar, written as `max q (-q)` (definitionally
equal to `|q|`, see `npAbs_eq_abs`) so that the kernel can evaluate it on
concrete inputs. -/
def npAbs (q : ℚ) : ℚ := max q (-q)

/-- `np.around` applied to the three components of a point. -/
def roundV (p : Vec3) : ℤ × ℤ × ℤ :=
  (roundEven p.1, roundEven p.2.1, roundEven p.2.2)

/-- Source line 62: `transform_scale`, the scale-by-25 homogeneous matrix. -/
def transform_scale : Matrix (Fin 4) (Fin 4) ℚ :=
  !![25, 0, 0, 0; 0, 25, 0, 0; 0, 0, 25, 0; 0, 0, 0, 1]

/-- Source line 63: `inv_transform_scale`, the scale-by-1/25 homogeneous matrix. -/
def inv_transform_scale : Matrix (Fin 4) (Fin 4) ℚ :=
  !![1/25, 0, 0, 0; 0, 1/25, 0, 0; 0, 0, 1/25, 0; 0, 0, 0, 1]

/-- Source line 69: `transform_direction`, translation by `-shift`. -/
def transform_direction (s : ℤ × ℤ × ℤ) : Matrix (Fin 4) (Fin 4) ℚ :=
  !![1, 0, 0, -(s.1 : ℚ); 0, 1, 0, -(s.2.1 : ℚ); 0, 0, 1, -(s.2.2 : ℚ); 0, 0, 0, 1]

/-- Source lines 70-71: `inv_transform_direction`, translation by `+shift`. -/
def inv_transform_direction (s : ℤ × ℤ × ℤ) : Matrix (Fin 4) (Fin 4) ℚ :=
  !![1, 0, 0, (s.1 : ℚ); 0, 1, 0, (s.2.1 : ℚ); 0, 0, 1, (s.2.2 : ℚ); 0, 0, 0, 1]

/-- Homogeneous coordinates of a point (one row of `coords_4d`, line 60). -/
def vec4 (p : Vec3) : Fin 4 → ℚ := ![p.1, p.2.1, p.2.2, 1]

/-- Drop the homogeneous coordinate. -/
def proj3 (v : Fin 4 → ℚ) : Vec3 := (v 0, v 1, v 2)

/-- Apply a homogeneous 4×4 matrix to a 3-d point. -/
def applyM (M : Matrix (Fin 4) (Fin 4) ℚ) (p : Vec3) : Vec3 :=
  proj3 (M.mulVec (vec4 p))

/-- Source line 64: one column of `voxel_coords = inv_transform_scale @ coords_4d.T`. -/
def toVoxel (p : Vec3) : Vec3 := applyM inv_transform_scale p

/-- Source line 72: one column of `voxel_coords = transform_direction @ voxel_coords`. -/
def shiftPoint (s : ℤ × ℤ × ℤ) (p : Vec3) : Vec3 := applyM (transform_direction s) p

/-- Source lines 88 and 92: one column of
`transform_scale @ inv_transform_direction @ (... 4d).T`, the inverse
transform back to real (micron) space. -/
def fromVoxel (s : ℤ × ℤ × ℤ) (p : Vec3) : Vec3 :=
  applyM (transform_scale * inv_transform_direction s) p

/-- `np.argmin`: index of the first occurrence of the least element of a
list.  (numpy returns the lowest index attaining the minimum.)  numpy raises
`ValueError` on an empty array; callers guard that case, and the value at
`[]` here is arbitrary. -/
def argminIdx {β : Type} [LinearOrder β] : List β → ℕ
  | [] => 0
  | [_] => 0
  | b :: c :: l =>
    let r := argminIdx (c :: l)
    if (c :: l).getD r b < b then r + 1 else 0

/-- Source lines 135-138: `_min_absolute_value(a1, a2)`.  Per axis,
`np.argmin(np.absolute(np.vstack((a1, a2))), axis=0)` picks the row of
`[a1; a2]` with the smaller absolute value (row 0, i.e. `a1`, on ties), and
Python's `int(...)` truncates the selected entry toward zero. -/
def _min_absolute_value (a1 a2 : Vec3) : ℤ × ℤ × ℤ :=
  let pick : ℚ → ℚ → ℤ := fun x y => intTrunc ([x, y].getD (argminIdx [npAbs x, npAbs y]) 0)
  (pick a1.1 a2.1, pick a1.2.1 a2.2.1, pick a1.2.2 a2.2.2)

/-- Per-axis maximum of a non-empty point list (`np.amax(..., axis=1)` over
the 3×N coordinate matrix).  The value at `[]` is arbitrary: `np.amax`
raises `ValueError` there and callers guard it. -/
def amax3 : List Vec3 → Vec3
  | [] => (0, 0, 0)
  | p :: ps => ps.foldl (fun a b => (max a.1 b.1, max a.2.1 b.2.1, max a.2.2 b.2.2)) p

/-- Per-axis minimum of a non-empty point list (`np.amin(..., axis=1)`). -/
def amin3 : List Vec3 → Vec3
  | [] => (0, 0, 0)
  | p :: ps => ps.foldl (fun a b => (min a.1 b.1, min a.2.1 b.2.1, min a.2.2 b.2.2)) p

/-- One cell of the occupancy grid (non-negative array indices). -/
abbrev Cell : Type := ℕ × ℕ × ℕ

/-- Python list/array indexing semantics on one axis of length `n`:
indices in `[0, n)` are used directly, indices in `[-n, 0)` wrap around,
anything else raises `IndexError` (modelled as `none`). -/
def pyIdx (n : ℕ) (i : ℤ) : Option ℕ :=
  if 0 ≤ i ∧ i < (n : ℤ) then some i.toNat
  else if -(n : ℤ) ≤ i ∧ i < 0 then some (i + (n : ℤ)).toNat
  else none

/-- One iteration of the write loop (line 79): `voxels[x, y, z] = 1`. -/
def writeCell (size : ℕ × ℕ × ℕ) (acc : Finset Cell) (c : ℤ × ℤ × ℤ) :
    Except PyError (Finset Cell) :=
  match pyIdx size.1 c.1, pyIdx size.2.1 c.2.1, pyIdx size.2.2 c.2.2 with
  | some x, some y, some z => .ok (insert (x, y, z) acc)
  | _, _, _ => .error .indexError

/-- The write loop of lines 78-79.  Returns the cells set to 1 so far and,
if some write raised `IndexError`, the error (the grid keeps the cells
written before the failing iteration). -/
def writeLoop (size : ℕ × ℕ × ℕ) :
    List (ℤ × ℤ × ℤ) → Finset Cell → Finset Cell × Option PyError
  | [], acc => (acc, none)
  | c :: cs, acc =>
    match writeCell size acc c with
    | .ok acc2 => writeLoop size cs acc2
    | .error e => (acc, some e)

/-- Lines 74-75: per-axis grid shape `np.around(max - min).astype(int) + 1`.
`max ≥ min` on every axis, so the rounded extent is non-negative and
`Int.toNat` is exact. -/
def gridSize (mx mn : Vec3) : ℕ × ℕ × ℕ :=
  ((roundEven (mx.1 - mn.1)).toNat + 1,
   (roundEven (mx.2.1 - mn.2.1)).toNat + 1,
   (roundEven (mx.2.2 - mn.2.2)).toNat + 1)

/-- The rounded integer coordinate array of line 77 reinterpreted as a
candidate pool of rational points (the int64 array `voxel_coords` that is
passed to `find_best_approximations`). -/
def intPool (ints : List (ℤ × ℤ × ℤ)) : List Vec3 :=
  ints.map (fun c => ((c.1 : ℚ), (c.2.1 : ℚ), (c.2.2 : ℚ)))

/-- Result of the voxelization stage (lines 66-84). -/
structure VoxOut where
  shift : ℤ × ℤ × ℤ
  size : ℕ × ℕ × ℕ
  ints : List (ℤ × ℤ × ℤ)
  occupied : Finset Cell
  paddedSize : ℕ × ℕ × ℕ
  paddedOcc : Finset Cell
deriving DecidableEq

/-- Lines 66-84 of `alphashape`: extrema of the voxel-space cloud, the
shift from `_min_absolute_value`, the shifted cloud, the zero-initialised
grid of shape `np.around(max-min).astype(int) + 1`, the rounded integer
coordinates, the write loop, and finally `np.pad(voxels, 1)` (one layer of
zero cells on every face: sizes grow by 2, occupied cells shift by +1). -/
def voxelizeE (cloud : List Vec3) : Except PyError VoxOut :=
  if cloud.isEmpty then .error .valueError
  else
    let mx := amax3 cloud
    let mn := amin3 cloud
    let s := _min_absolute_value mx mn
    let shifted := cloud.map (shiftPoint s)
    let size := gridSize mx mn
    let ints := shifted.map roundV
    match writeLoop size ints ∅ with
    | (_, some e) => .error e
    | (occ, none) =>
      .ok { shift := s, size := size, ints := ints, occupied := occ,
            paddedSize := (size.1 + 2, size.2.1 + 2, size.2.2 + 2),
            paddedOcc := occ.image (fun c => (c.1 + 1, c.2.1 + 1, c.2.2 + 1)) }

/-- Lines 155-157: the signed distance stored in `distances[ii]`, namely
`(n·p + d) / np.linalg.norm(n)` with `d = -n·v`.  `np.linalg.norm` is the
square root of the sum of squared components, hence the value lives in `ℝ`. -/
noncomputable def planeDist (normal vertex point : Vec3) : ℝ :=
  let d : ℝ := -(normal.1 : ℝ) * (vertex.1 : ℝ) - (normal.2.1 : ℝ) * (vertex.2.1 : ℝ) -
    (normal.2.2 : ℝ) * (vertex.2.2 : ℝ)
  ((normal.1 : ℝ) * (point.1 : ℝ) + (normal.2.1 : ℝ) * (point.2.1 : ℝ) +
      (normal.2.2 : ℝ) * (point.2.2 : ℝ) + d) /
    Real.sqrt ((normal.1 : ℝ) ^ 2 + (normal.2.1 : ℝ) ^ 2 + (normal.2.2 : ℝ) ^ 2)

/-- The consumption sentinel actually stored by line 167.  The pool array
`coords` is the int64 array produced by `.astype(int)` on line 77, so the
assignment `coords[minind] = [np.inf, np.inf, np.inf]` is an unsafe
float-to-int64 cast: `np.inf` wraps to `INT64_MIN = -2^63` in each
coordinate.  The consumed slot therefore holds a huge but *finite* row, and
its plane distance is computed by the same formula as every other row — for
normals with cancelling components it can be small (spec §7's
NumericOverflow hazard). -/
def sentinel : Vec3 := (-(2 ^ 63 : ℚ), -(2 ^ 63 : ℚ), -(2 ^ 63 : ℚ))

/-- Rational dot product of two rows (the numerator arithmetic of
lines 155-157 before the division by `np.linalg.norm`). -/
def dotQ (a b : Vec3) : ℚ := a.1 * b.1 + a.2.1 * b.2.1 + a.2.2 * b.2.2

/-- The spec's formula for the signed plane distance,
`d(p) = (n·p − n·v) / ‖n‖` (stated from the spec's words, for comparison
with `planeDist` which the source computes). -/
noncomputable def specDist (n v p : Vec3) : ℝ :=
  (((n.1 * p.1 + n.2.1 * p.2.1 + n.2.2 * p.2.2 : ℚ) : ℝ) -
      ((n.1 * v.1 + n.2.1 * v.2.1 + n.2.2 * v.2.2 : ℚ) : ℝ)) /
    Real.sqrt (((n.1 ^ 2 + n.2.1 ^ 2 + n.2.2 ^ 2 : ℚ) : ℝ))

/-- `‖n‖²` as a rational; nonzero exactly when the normal is nonzero. -/
def normSq (n : Vec3) : ℚ := n.1 ^ 2 + n.2.1 ^ 2 + n.2.2 ^ 2

/-- One iteration of the outer loop of `find_best_approximations`
(lines 151-167): build the distances array over every pool slot (consumed
slots included — their current value is the `sentinel` row, and no guard
excludes them), take `np.argmin(np.absolute(distances))`, read the selected
row, overwrite it with the consumption sentinel.  The `getD` default is
never reached (callers guard the empty pool, on which `np.argmin` raises). -/
noncomputable def projectStep (pool : List Vec3) (vertex normal : Vec3) :
    List Vec3 × Vec3 :=
  let distances := pool.map (planeDist normal vertex)
  let minind := argminIdx (distances.map (fun x => |x|))
  (pool.set minind sentinel, pool.getD minind sentinel)

/-- The outer loop of `find_best_approximations` over `zip(verts, normals)`.
`np.argmin` raises `ValueError` if the pool array is empty. -/
noncomputable def projectLoop :
    List Vec3 → List (Vec3 × Vec3) →
    Except PyError (List Vec3 × List Vec3)
  | pool, [] => .ok ([], pool)
  | pool, (vertex, normal) :: rest =>
    if pool.isEmpty then .error .valueError
    else
      let step := projectStep pool vertex normal
      match projectLoop step.1 rest with
      | .ok (res, fin) => .ok (step.2 :: res, fin)
      | .error e => .error e

/-- Source lines 147-168: `find_best_approximations(coords, verts, normals)`.
Returns the per-vertex selections (`best_approximations`, in mesh order) and
the final state of the in-place-mutated pool array. -/
noncomputable def find_best_approximations (coords : List Vec3)
    (verts normals : List Vec3) :
    Except PyError (List Vec3 × List Vec3) :=
  projectLoop coords (verts.zip normals)

/-- Number of pool slots whose current value is not the consumption
sentinel (under the no-sentinel-collision hypotheses used below, exactly
the not-yet-consumed slots). -/
def countAvail (pool : List Vec3) : ℕ :=
  pool.countP (fun p => decide (p ≠ sentinel))

/-- The external isosurface extractor (`skimage.measure.marching_cubes`),
as an oracle from the padded grid (shape and occupied cells) to the mesh's
vertices and vertex normals.  Faces are not consumed by the core. -/
abbrev MCOracle : Type := (ℕ × ℕ × ℕ) → Finset Cell → List Vec3 × List Vec3

/-- A marching-cubes oracle returning an empty mesh (the valid "no surface"
outcome). -/
def mcEmpty : MCOracle := fun _ _ => ([], [])

/-- The artifacts of one `alphashape` run. -/
structure AlphaOut where
  vox : VoxOut
  pool : List Vec3
  best : List Vec3
  finalPool : List Vec3
  approx : List Vec3
  ret : Option (List Vec3)
deriving DecidableEq

/-- Source lines 44-132: `alphashape(coords)` (the `plot` branch only draws).
The input is the caller's micron-space cloud; `approx` holds the rows of
`approx_coords` (line 92), the inverse-transformed best approximations, with
a sentinel row mapped to `none`.  The function body ends without an active
`return` statement (line 132 is commented out), so the Python return value
is `None`: field `ret` is `none`. -/
noncomputable def alphashape (mc : MCOracle) (coords : List Vec3) :
    Except PyError AlphaOut :=
  match voxelizeE (coords.map toVoxel) with
  | .error e => .error e
  | .ok vox =>
    let vn := mc vox.paddedSize vox.paddedOcc
    let pool := intPool vox.ints
    match find_best_approximations pool vn.1 vn.2 with
    | .error e => .error e
    | .ok (best, fin) =>
      .ok { vox := vox, pool := pool, best := best, finalPool := fin,
            approx := best.map (fromVoxel vox.shift),
            ret := none }

/-- A numpy array in the heap model: a 2-d array of scalars (float or int
rows are both rational-valued here), or an occupancy grid. -/
inductive PyArr : Type where
  | m2 (rows : List (List ℚ))
  | grid (size : ℕ × ℕ × ℕ) (occ : Finset Cell)
deriving DecidableEq

/-- The array heap: the caller's pre-existing arrays (the coordinate array
and the six tensor-component arrays among them) followed by arrays the
pipeline allocates. -/
structure Heap where
  arrs : List PyArr
deriving DecidableEq

/-- Allocate a fresh array, returning its reference. -/
def Heap.alloc (h : Heap) (a : PyArr) : Heap × ℕ :=
  (⟨h.arrs ++ [a]⟩, h.arrs.length)

/-- Overwrite the array at an existing reference (in-place mutation). -/
def Heap.write (h : Heap) (r : ℕ) (a : PyArr) : Heap :=
  ⟨h.arrs.set r a⟩

/-- Read a reference. -/
def Heap.read (h : Heap) (r : ℕ) : Option PyArr :=
  h.arrs.get? r

/-- Interpret a row of three scalars as a point. -/
def rowToVec3 : List ℚ → Option Vec3
  | [x, y, z] => some (x, y, z)
  | _ => none

/-- Read the caller's N×3 coordinate array. -/
def readCoords (h : Heap) (r : ℕ) : Option (List Vec3) :=
  match h.read r with
  | some (.m2 rows) => rows.mapM rowToVec3
  | _ => none

/-- A point as an array row. -/
def vecRow (p : Vec3) : List ℚ := [p.1, p.2.1, p.2.2]

/-- A point as a homogeneous array row (trailing 1, line 60 / 87 / 91). -/
def vecRow4 (p : Vec3) : List ℚ := [p.1, p.2.1, p.2.2, 1]

/-- An integer coordinate triple as an array row. -/
def intRow (c : ℤ × ℤ × ℤ) : List ℚ := [(c.1 : ℚ), (c.2.1 : ℚ), (c.2.2 : ℚ)]

/-- `alphashape` at the level of the array heap, tracking which arrays are
freshly allocated and which are mutated in place.  Matrix products are
stored row-major (numpy holds the 4×N transposes; the layout does not affect
which references are written).  The two in-place mutations of the run are
the voxel-grid writes (line 79) and the pool consumption inside
`find_best_approximations` (line 167); both target arrays allocated during
the run (`np.hstack`, `np.zeros`, matrix products, and `.astype(int)` all
allocate fresh arrays). -/
noncomputable def alphashapeH (mc : MCOracle) (h0 : Heap) (r : ℕ) :
    Heap × Except PyError Unit :=
  match readCoords h0 r with
  | none => (h0, .error .typeError)
  | some coords =>
    let (h1, _) := h0.alloc (.m2 (coords.map vecRow4))
    let vox0 := coords.map toVoxel
    let (h2, _) := h1.alloc (.m2 (vox0.map vecRow))
    if coords.isEmpty then (h2, .error .valueError)
    else
      let mx := amax3 vox0
      let mn := amin3 vox0
      let s := _min_absolute_value mx mn
      let shifted := vox0.map (shiftPoint s)
      let (h3, _) := h2.alloc (.m2 (shifted.map vecRow))
      let size := gridSize mx mn
      let (h4, gref) := h3.alloc (.grid size ∅)
      let ints := shifted.map roundV
      let (h5, pref) := h4.alloc (.m2 (ints.map intRow))
      let wr := writeLoop size ints ∅
      let h6 := h5.write gref (.grid size wr.1)
      match wr.2 with
      | some e => (h6, .error e)
      | none =>
        let psize := (size.1 + 2, size.2.1 + 2, size.2.2 + 2)
        let pocc := wr.1.image (fun c => (c.1 + 1, c.2.1 + 1, c.2.2 + 1))
        let (h7, _) := h6.alloc (.grid psize pocc)
        let vn := mc psize pocc
        let (h8, _) := h7.alloc (.m2 (vn.1.map vecRow))
        let (h9, _) := h8.alloc (.m2 (vn.2.map vecRow))
        match find_best_approximations (intPool ints) vn.1 vn.2 with
        | .error e => (h9, .error e)
        | .ok (best, fin) =>
          let (h10, _) := h9.alloc (.m2 (best.map vecRow))
          let h11 := h10.write pref (.m2 (fin.map vecRow))
          let (h12, _) := h11.alloc (.m2 (vn.1.map vecRow4))
          let (h13, _) := h12.alloc (.m2 ((vn.1.map (fromVoxel s)).map vecRow))
          let (h14, _) := h13.alloc (.m2 (best.map vecRow4))
          let (h15, _) :=
            h14.alloc (.m2 ((best.map (fromVoxel s)).map vecRow))
          (h15, .ok ())

/-- The shift the spec describes: per axis, whichever of max and min has the
smaller absolute value, ties in favor of max.  (Stated from the spec's words,
for comparison with `_min_absolute_value` which the source actually computes.) -/
def specShiftAxis (mx mn : ℚ) : ℚ :=
  if |mx| ≤ |mn| then mx else mn

theorem toVoxel_apply (p : Vec3) : toVoxel p = (p.1 / 25, p.2.1 / 25, p.2.2 / 25) := by
  simp [toVoxel, applyM, proj3, vec4, inv_transform_scale, Matrix.mulVec,
    Matrix.dotProduct, Fin.sum_univ_four, Matrix.vecHead, Matrix.vecTail]
  exact ⟨by ring, by ring, by ring⟩

theorem shiftPoint_apply (s : ℤ × ℤ × ℤ) (p : Vec3) :
    shiftPoint s p = (p.1 - (s.1 : ℚ), p.2.1 - (s.2.1 : ℚ), p.2.2 - (s.2.2 : ℚ)) := by
  simp [shiftPoint, applyM, proj3, vec4, transform_direction, Matrix.mulVec,
    Matrix.dotProduct, Fin.sum_univ_four, Matrix.vecHead, Matrix.vecTail]
  exact ⟨by ring, by ring, by ring⟩

theorem fromVoxel_apply (s : ℤ × ℤ × ℤ) (p : Vec3) :
    fromVoxel s p =
      (25 * (p.1 + (s.1 : ℚ)), 25 * (p.2.1 + (s.2.1 : ℚ)), 25 * (p.2.2 + (s.2.2 : ℚ))) := by
  simp [fromVoxel, applyM, proj3, vec4, transform_scale, inv_transform_direction,
    Matrix.mulVec, Matrix.dotProduct, Matrix.mul_apply, Fin.sum_univ_four,
    Matrix.vecHead, Matrix.vecTail]
  exact ⟨by ring, by ring, by ring⟩

theorem transform_scale_mul_inv :
    transform_scale * inv_transform_scale = 1 ∧
    inv_transform_scale * transform_scale = 1 := by
  constructor <;>
    · ext i j
      fin_cases i <;> fin_cases j <;>
        simp [transform_scale, inv_transform_scale, Matrix.mul_apply,
          Fin.sum_univ_four, Matrix.one_apply, Matrix.vecHead, Matrix.vecTail]

theorem transform_direction_mul_inv (s : ℤ × ℤ × ℤ) :
    transform_direction s * inv_transform_direction s = 1 ∧
    inv_transform_direction s * transform_direction s = 1 := by
  constructor <;>
    · ext i j
      fin_cases i <;> fin_cases j <;>
        simp [transform_direction, inv_transform_direction, Matrix.mul_apply,
          Fin.sum_univ_four, Matrix.one_apply, Matrix.vecHead, Matrix.vecTail]

/-- C9: the inverse affine transform used on lines 88/92
(`transform_scale @ inv_transform_direction`) is the exact algebraic inverse
of the forward transform of lines 64/72
(`transform_direction @ inv_transform_scale`): both composites are the
identity matrix, composing forward then inverse is the identity on every
point, and `forward (inverse (forward p)) = forward p` — exactly in the
rational model, hence within floating tolerance. -/
theorem inverse_transform_is_exact_inverse (s : ℤ × ℤ × ℤ) (p : Vec3) :
    (transform_scale * inv_transform_direction s) *
        (transform_direction s * inv_transform_scale) = 1 ∧
    (transform_direction s * inv_transform_scale) *
        (transform_scale * inv_transform_direction s) = 1 ∧
    fromVoxel s (shiftPoint s (toVoxel p)) = p ∧
    shiftPoint s (toVoxel (fromVoxel s (shiftPoint s (toVoxel p)))) =
      shiftPoint s (toVoxel p) := by
  have h1 : (transform_scale * inv_transform_direction s) *
      (transform_direction s * inv_transform_scale) = 1 := by
    rw [mul_assoc, ← mul_assoc (inv_transform_direction s),
      (transform_direction_mul_inv s).2, one_mul, transform_scale_mul_inv.1]
  have h2 : (transform_direction s * inv_transform_scale) *
      (transform_scale * inv_transform_direction s) = 1 := by
    rw [mul_assoc, ← mul_assoc inv_transform_scale,
      transform_scale_mul_inv.2, one_mul, (transform_direction_mul_inv s).1]
  have h3 : fromVoxel s (shiftPoint s (toVoxel p)) = p := by
    rcases p with ⟨x, y, z⟩
    simp [toVoxel_apply, shiftPoint_apply, fromVoxel_apply]
    refine ⟨by ring, by ring, by ring⟩
  exact ⟨h1, h2, h3, by rw [h3]⟩

/-- Helper for C8: the per-axis selection of `_min_absolute_value` is the
truncation toward zero of the extremum with the smaller absolute value
(ties in favor of the first row). -/
theorem npAbs_eq_abs (q : ℚ) : npAbs q = |q| := (abs_eq_max_neg (a := q)).symm

theorem min_abs_pick_eq (x y : ℚ) :
    intTrunc ([x, y].getD (argminIdx [npAbs x, npAbs y]) 0) = intTrunc (specShiftAxis x y) := by
  rcases lt_or_le |y| |x| with h | h
  · simp [argminIdx, List.getD, specShiftAxis, npAbs_eq_abs, h, not_le.mpr h]
  · simp [argminIdx, List.getD, specShiftAxis, npAbs_eq_abs, h, not_lt.mpr h]

/-- C8 counterexample: for the voxel-space cloud `[(5/2,0,0), (-3,0,0)]` the
per-axis maximum is `5/2` and the minimum is `-3`; `|5/2| < |-3|`, so the
claim says the shift's first component is `5/2`, but `_min_absolute_value`
returns `int(5/2) = 2`. -/
theorem shift_smaller_extremum_counterexample :
    ((_min_absolute_value (amax3 [((5:ℚ)/2, 0, 0), (-3, 0, 0)])
        (amin3 [((5:ℚ)/2, 0, 0), (-3, 0, 0)])).1 : ℚ) ≠
      specShiftAxis (amax3 [((5:ℚ)/2, 0, 0), (-3, 0, 0)]).1
        (amin3 [((5:ℚ)/2, 0, 0), (-3, 0, 0)]).1 ∧
    _min_absolute_value (amax3 [((5:ℚ)/2, 0, 0), (-3, 0, 0)])
        (amin3 [((5:ℚ)/2, 0, 0), (-3, 0, 0)]) = (2, 0, 0) ∧
    specShiftAxis (amax3 [((5:ℚ)/2, 0, 0), (-3, 0, 0)]).1
        (amin3 [((5:ℚ)/2, 0, 0), (-3, 0, 0)]).1 = 5/2 := by
  have hmax : amax3 [((5:ℚ)/2, 0, 0), (-3, 0, 0)] = ((5:ℚ)/2, 0, 0) := by
    simp [amax3]
    norm_num [max_def]
  have hmin : amin3 [((5:ℚ)/2, 0, 0), (-3, 0, 0)] = (-3, 0, 0) := by
    simp [amin3]
    norm_num [min_def]
  have hspec : specShiftAxis ((5:ℚ)/2) (-3) = 5/2 := by
    have h : |(5:ℚ)/2| ≤ |(-3 : ℚ)| := by
      rw [abs_of_pos (by norm_num), abs_of_neg (by norm_num)]
      norm_num
    unfold specShiftAxis
    rw [if_pos h]
  have hmv : _min_absolute_value ((5:ℚ)/2, 0, 0) (-3, 0, 0) = (2, 0, 0) := by
    simp only [_min_absolute_value, npAbs, argminIdx, List.getD, intTrunc]
    norm_num [max_def]
  rw [hmax, hmin, hmv, hspec]
  norm_num

/-- C8 amended: the shift computed from the voxel-space extrema equals,
per axis, the *integer truncation toward zero* of whichever of the per-axis
maximum and minimum has the smaller absolute value, ties resolved in favor
of the maximum. -/
theorem shift_truncates_smaller_extremum (cloud : List Vec3) :
    _min_absolute_value (amax3 cloud) (amin3 cloud) =
      (intTrunc (specShiftAxis (amax3 cloud).1 (amin3 cloud).1),
       intTrunc (specShiftAxis (amax3 cloud).2.1 (amin3 cloud).2.1),
       intTrunc (specShiftAxis (amax3 cloud).2.2 (amin3 cloud).2.2)) := by
  simp only [_min_absolute_value, min_abs_pick_eq]

/-- Characterisation of `np.argmin` on a non-empty list: the returned index
is in range, the element there is a minimum, and every earlier element is
strictly larger (first-occurrence tie-breaking). -/
theorem argminIdx_spec {β : Type} [LinearOrder β] (d : β) (x : β) (t : List β) :
    argminIdx (x :: t) < (x :: t).length ∧
    (∀ m, m < (x :: t).length → (x :: t).getD (argminIdx (x :: t)) d ≤ (x :: t).getD m d) ∧
    (∀ m, m < argminIdx (x :: t) → (x :: t).getD (argminIdx (x :: t)) d < (x :: t).getD m d) := by
  induction t generalizing x with
  | nil =>
    refine ⟨by simp [argminIdx], ?_, ?_⟩
    · intro m hm
      have hm0 : m = 0 := by simpa using hm
      subst hm0
      exact le_refl _
    · intro m hm
      simp [argminIdx] at hm
  | cons y t ih =>
    obtain ⟨ih1, ih2, ih3⟩ := ih y
    have hdef : argminIdx (x :: y :: t) =
        if (y :: t).getD (argminIdx (y :: t)) x < x then argminIdx (y :: t) + 1 else 0 := rfl
    have hlen : argminIdx (y :: t) < (y :: t).length := ih1
    have hgd : (y :: t).getD (argminIdx (y :: t)) x = (y :: t).getD (argminIdx (y :: t)) d := by
      rw [List.getD_eq_getElem _ x hlen, List.getD_eq_getElem _ d hlen]
    by_cases hc : (y :: t).getD (argminIdx (y :: t)) d < x
    · rw [hdef, hgd, if_pos hc]
      refine ⟨by simpa using hlen, ?_, ?_⟩
      · intro m hm
        match m with
        | 0 => simpa [List.getD_cons_succ, List.getD_cons_zero] using le_of_lt hc
        | Nat.succ m =>
          simpa [List.getD_cons_succ] using ih2 m (by simpa using hm)
      · intro m hm
        match m with
        | 0 => simpa [List.getD_cons_succ, List.getD_cons_zero] using hc
        | Nat.succ m =>
          simpa [List.getD_cons_succ] using ih3 m (by omega)
    · rw [hdef, hgd, if_neg hc]
      refine ⟨by simp, ?_, ?_⟩
      · intro m hm
        match m with
        | 0 => simp
        | Nat.succ m =>
          have h1 : x ≤ (y :: t).getD (argminIdx (y :: t)) d := not_lt.mp hc
          have h2 := ih2 m (by simpa using hm)
          simpa [List.getD_cons_succ, List.getD_cons_zero] using le_trans h1 h2
      · intro m hm
        exact absurd hm (by simp)

/-- `argminIdx_spec` for an arbitrary non-empty list. -/
theorem argminIdx_spec' {β : Type} [LinearOrder β] (d : β) (l : List β) (h : l ≠ []) :
    argminIdx l < l.length ∧
    (∀ m, m < l.length → l.getD (argminIdx l) d ≤ l.getD m d) ∧
    (∀ m, m < argminIdx l → l.getD (argminIdx l) d < l.getD m d) := by
  match l with
  | [] => exact absurd rfl h
  | x :: t => exact argminIdx_spec d x t

/-- The distance stored by the source (lines 155-157) is the spec's
`(n·p − n·v) / ‖n‖`. -/
theorem planeDist_eq_specDist (n v p : Vec3) : planeDist n v p = specDist n v p := by
  simp only [planeDist, specDist]
  push_cast
  ring_nf

/-- Key-list entry: the `np.absolute(distances)` array holds
`|planeDist n v q|` at the index of the pool slot holding `q`. -/
theorem distKey_getD (pool : List Vec3) (n v : Vec3) (k : ℕ) (q : Vec3)
    (h : pool[k]? = some q) :
    ((pool.map (planeDist n v)).map (fun x => |x|)).getD k 0 = |planeDist n v q| := by
  rw [List.getD_eq_getElem?_getD, List.getElem?_map, List.getElem?_map, h]
  rfl

/-- One projection step on a non-empty pool: a slot of minimal absolute
plane distance is selected among ALL current slots — already-consumed slots
are not excluded, they merely hold the sentinel row and compete with their
recomputed distance — with ties going to the first occurrence; its current
value is returned and the slot is overwritten with the sentinel row. -/
theorem projectStep_spec (pool : List Vec3) (v n : Vec3) (hne : pool ≠ []) :
    ∃ (i : ℕ) (p : Vec3), i < pool.length ∧ pool[i]? = some p ∧
      projectStep pool v n = (pool.set i sentinel, p) ∧
      (∀ (k : ℕ) (q : Vec3), pool[k]? = some q →
        |planeDist n v p| ≤ |planeDist n v q|) ∧
      (∀ (k : ℕ) (q : Vec3), k < i → pool[k]? = some q →
        |planeDist n v p| < |planeDist n v q|) := by
  have hklne : ((pool.map (planeDist n v)).map (fun x => |x|)) ≠ [] := by
    simpa using hne
  obtain ⟨h1, h2, h3⟩ := argminIdx_spec' (0 : ℝ) _ hklne
  have hlenkl : ((pool.map (planeDist n v)).map (fun x => |x|)).length
      = pool.length := by simp
  rw [hlenkl] at h1
  obtain ⟨p, hp⟩ : ∃ p, pool[argminIdx
      ((pool.map (planeDist n v)).map (fun x => |x|))]? = some p :=
    ⟨_, List.getElem?_eq_getElem h1⟩
  have hsel : pool.getD (argminIdx
      ((pool.map (planeDist n v)).map (fun x => |x|))) sentinel = p := by
    rw [List.getD_eq_getElem?_getD, hp]
    rfl
  refine ⟨_, p, h1, hp, ?_, ?_, ?_⟩
  · rw [show projectStep pool v n =
      (pool.set (argminIdx ((pool.map (planeDist n v)).map (fun x => |x|))) sentinel,
       pool.getD (argminIdx ((pool.map (planeDist n v)).map (fun x => |x|))) sentinel)
      from rfl, hsel]
  · intro k q hkq
    have hklt : k < pool.length := (List.getElem?_eq_some_iff.mp hkq).1
    have hle := h2 k (by rw [hlenkl]; exact hklt)
    rwa [distKey_getD pool n v _ p hp, distKey_getD pool n v k q hkq] at hle
  · intro k q hk hkq
    have hlt := h3 k hk
    rwa [distKey_getD pool n v _ p hp, distKey_getD pool n v k q hkq] at hlt

theorem countAvail_set_sentinel (pool : List Vec3) (i : ℕ) (p : Vec3)
    (h : pool[i]? = some p) (hp : p ≠ sentinel) :
    countAvail (pool.set i sentinel) + 1 = countAvail pool := by
  induction pool generalizing i with
  | nil => simp at h
  | cons e t ih =>
    match i with
    | 0 =>
      simp only [List.getElem?_cons_zero, Option.some.injEq] at h
      subst h
      simp [countAvail, List.countP_cons, hp]
    | Nat.succ i =>
      simp only [List.getElem?_cons_succ] at h
      have := ih i h
      simp only [List.set_cons_succ, countAvail, List.countP_cons] at this ⊢
      omega

theorem countAvail_eq_length (pool : List Vec3) (h : sentinel ∉ pool) :
    countAvail pool = pool.length :=
  List.countP_eq_length.mpr (fun a ha =>
    decide_eq_true (fun hEq : a = sentinel => h (hEq ▸ ha)))

theorem exists_avail_of_pos (pool : List Vec3) (h : 0 < countAvail pool) :
    ∃ q ∈ pool, q ≠ sentinel := by
  obtain ⟨e, he, hs⟩ := List.countP_pos_iff.mp h
  exact ⟨e, he, of_decide_eq_true hs⟩

theorem projectLoop_nil (pool : List Vec3) :
    projectLoop pool [] = .ok ([], pool) := rfl

theorem projectLoop_cons (pool : List Vec3) (v n : Vec3)
    (rest : List (Vec3 × Vec3)) :
    projectLoop pool ((v, n) :: rest) =
      if pool.isEmpty then .error .valueError
      else
        match projectLoop (projectStep pool v n).1 rest with
        | .ok (res, fin) => .ok ((projectStep pool v n).2 :: res, fin)
        | .error e => .error e := rfl

theorem projectLoop_lengths :
    ∀ (vns : List (Vec3 × Vec3)) (pool res fin : List Vec3),
      projectLoop pool vns = .ok (res, fin) →
      res.length = vns.length ∧ fin.length = pool.length := by
  intro vns
  induction vns with
  | nil =>
    intro pool res fin h
    rw [projectLoop_nil] at h
    simp only [Except.ok.injEq, Prod.mk.injEq] at h
    obtain ⟨h1, h2⟩ := h
    subst h1; subst h2
    exact ⟨rfl, rfl⟩
  | cons vn rest ih =>
    intro pool res fin h
    obtain ⟨v, n⟩ := vn
    rw [projectLoop_cons] at h
    by_cases hemp : pool.isEmpty
    · rw [if_pos hemp] at h
      exact absurd h (by simp)
    · rw [if_neg hemp] at h
      cases hrec : projectLoop (projectStep pool v n).1 rest with
      | error e => rw [hrec] at h; simp at h
      | ok pr =>
        obtain ⟨r2, f2⟩ := pr
        rw [hrec] at h
        simp only [Except.ok.injEq, Prod.mk.injEq] at h
        obtain ⟨h1, h2⟩ := h
        subst h1; subst h2
        obtain ⟨ihl, ihf⟩ := ih _ _ _ hrec
        refine ⟨by simp [ihl], ?_⟩
        rw [ihf]
        simp [projectStep]

theorem projectLoop_append :
    ∀ (l1 : List (Vec3 × Vec3)) (l2 : List (Vec3 × Vec3))
      (pool r1 f1 : List Vec3),
      projectLoop pool l1 = .ok (r1, f1) →
      projectLoop pool (l1 ++ l2) =
        match projectLoop f1 l2 with
        | .ok (r2, f2) => .ok (r1 ++ r2, f2)
        | .error e => .error e := by
  intro l1
  induction l1 with
  | nil =>
    intro l2 pool r1 f1 h
    rw [projectLoop_nil] at h
    simp only [Except.ok.injEq, Prod.mk.injEq] at h
    obtain ⟨h1, h2⟩ := h
    subst h1; subst h2
    simp only [List.nil_append]
    cases hrec : projectLoop pool l2 with
    | error e => rfl
    | ok pr => obtain ⟨r2, f2⟩ := pr; simp
  | cons vn t ih =>
    intro l2 pool r1 f1 h
    obtain ⟨v, n⟩ := vn
    rw [projectLoop_cons] at h
    by_cases hemp : pool.isEmpty
    · rw [if_pos hemp] at h
      exact absurd h (by simp)
    · rw [if_neg hemp] at h
      cases hrec : projectLoop (projectStep pool v n).1 t with
      | error e => rw [hrec] at h; simp at h
      | ok pr =>
        obtain ⟨r2, f2⟩ := pr
        rw [hrec] at h
        simp only [Except.ok.injEq, Prod.mk.injEq] at h
        obtain ⟨h1, h2⟩ := h
        subst h1; subst h2
        have hih := ih l2 _ _ _ hrec
        rw [List.cons_append, projectLoop_cons, if_neg hemp, hih]
        cases hx : projectLoop f2 l2 with
        | error e => rfl
        | ok pr2 => obtain ⟨r3, f3⟩ := pr2; rfl

/-- `planeDist` as a single quotient: rational numerator `n·p − n·v` over
the real `‖n‖`. -/
theorem planeDist_ratio (n v p : Vec3) :
    planeDist n v p = ((dotQ n p - dotQ n v : ℚ) : ℝ) /
      Real.sqrt ((normSq n : ℝ)) := by
  simp only [planeDist, dotQ, normSq]
  push_cast
  ring_nf

/-- Strict comparison of absolute rational squares transfers to absolute
values. -/
theorem abs_lt_abs_of_sq_lt_sq (a b : ℚ) (h : a ^ 2 < b ^ 2) : |a| < |b| := by
  nlinarith [abs_nonneg a, abs_nonneg b, sq_abs a, sq_abs b]

/-- For a nonzero normal, a strict comparison of the rational numerators
transfers to the real absolute plane distances. -/
theorem abs_planeDist_lt (n v q1 q2 : Vec3) (hn : normSq n ≠ 0)
    (h : |dotQ n q1 - dotQ n v| < |dotQ n q2 - dotQ n v|) :
    |planeDist n v q1| < |planeDist n v q2| := by
  have hnn : (0 : ℚ) ≤ normSq n := by
    simp only [normSq]
    positivity
  have h0 : (0 : ℚ) < normSq n := hnn.lt_of_ne (Ne.symm hn)
  have hpos : (0 : ℝ) < Real.sqrt ((normSq n : ℝ)) := by
    apply Real.sqrt_pos.mpr
    exact_mod_cast h0
  rw [planeDist_ratio, planeDist_ratio, abs_div, abs_div, abs_of_pos hpos,
    div_lt_div_iff₀ hpos hpos]
  have h' : |((dotQ n q1 - dotQ n v : ℚ) : ℝ)| <
      |((dotQ n q2 - dotQ n v : ℚ) : ℝ)| := by
    exact_mod_cast h
  exact mul_lt_mul_of_pos_right h' hpos

/-- Soundness of the projection loop under a no-cancellation guard: when
the pool has at least as many non-sentinel slots as there are steps, and at
every step every non-sentinel pool value strictly beats the sentinel row in
absolute plane distance, the run succeeds and every produced entry is a
non-sentinel entry of the initial pool, at pairwise-distinct pool
indices. -/
theorem projectLoop_sound :
    ∀ (vns : List (Vec3 × Vec3)) (pool : List Vec3),
      vns.length ≤ countAvail pool →
      (∀ vn ∈ vns, ∀ q ∈ pool, q ≠ sentinel →
        |planeDist vn.2 vn.1 q| < |planeDist vn.2 vn.1 sentinel|) →
      ∃ (res fin : List Vec3) (idx : List ℕ),
        projectLoop pool vns = .ok (res, fin) ∧
        res.length = vns.length ∧ fin.length = pool.length ∧
        idx.Nodup ∧ idx.length = vns.length ∧
        (∀ (j i : ℕ), idx[j]? = some i →
          ∃ p : Vec3, pool[i]? = some p ∧ p ≠ sentinel ∧ res[j]? = some p) := by
  intro vns
  induction vns with
  | nil =>
    intro pool h hg
    exact ⟨[], pool, [], projectLoop_nil pool, rfl, rfl, List.nodup_nil, rfl, by simp⟩
  | cons vn rest ih =>
    intro pool h hg
    obtain ⟨v, n⟩ := vn
    have hpos : 0 < countAvail pool := by
      simp only [List.length_cons] at h
      omega
    obtain ⟨q0, hq0mem, hq0ne⟩ := exists_avail_of_pos pool hpos
    have hnemp : ¬ pool.isEmpty := by
      cases pool
      · simp at hq0mem
      · simp
    have hpne : pool ≠ [] := by
      intro hE
      rw [hE] at hq0mem
      simp at hq0mem
    obtain ⟨i0, psel, hi0lt, hi0, hstep, hmin, _⟩ := projectStep_spec pool v n hpne
    have hpsel_ne : psel ≠ sentinel := by
      intro hEq
      obtain ⟨k0, hk0⟩ := List.mem_iff_getElem?.mp hq0mem
      have hle := hmin k0 q0 hk0
      have hgd := hg (v, n) (List.mem_cons_self _ _) q0 hq0mem hq0ne
      rw [hEq] at hle
      exact absurd (lt_of_le_of_lt hle hgd) (lt_irrefl _)
    have hcount : countAvail (pool.set i0 sentinel) + 1 = countAvail pool :=
      countAvail_set_sentinel pool i0 psel hi0 hpsel_ne
    have hrest : rest.length ≤ countAvail (pool.set i0 sentinel) := by
      simp only [List.length_cons] at h
      omega
    have hgrest : ∀ vn ∈ rest, ∀ q ∈ pool.set i0 sentinel, q ≠ sentinel →
        |planeDist vn.2 vn.1 q| < |planeDist vn.2 vn.1 sentinel| := by
      intro vn hvn' q hq hqne
      have hqpool : q ∈ pool := by
        rcases List.mem_or_eq_of_mem_set hq with hmem | hE
        · exact hmem
        · exact absurd hE hqne
      exact hg vn (List.mem_cons_of_mem _ hvn') q hqpool hqne
    obtain ⟨res', fin', idx', hrun', hrl, hfl, hnd, hil, hsel'⟩ :=
      ih (pool.set i0 sentinel) hrest hgrest
    have h1 : (projectStep pool v n).1 = pool.set i0 sentinel := by rw [hstep]
    have h2 : (projectStep pool v n).2 = psel := by rw [hstep]
    refine ⟨psel :: res', fin', i0 :: idx', ?_, by simp [hrl],
      by simpa using hfl, ?_, by simp [hil], ?_⟩
    · rw [projectLoop_cons, if_neg hnemp, h1, hrun', h2]
    · refine List.nodup_cons.mpr ⟨?_, hnd⟩
      intro hmem
      obtain ⟨j, hj⟩ := List.mem_iff_getElem?.mp hmem
      obtain ⟨p, hpi, hpne', _⟩ := hsel' j i0 hj
      have hset : (pool.set i0 sentinel)[i0]? = some sentinel := by
        simp [List.getElem?_set_self, hi0lt]
      rw [hset] at hpi
      exact hpne' (Option.some.inj hpi).symm
    · intro j i hj
      match j with
      | 0 =>
        simp only [List.getElem?_cons_zero, Option.some.injEq] at hj
        subst hj
        exact ⟨psel, hi0, hpsel_ne, by simp⟩
      | Nat.succ j =>
        simp only [List.getElem?_cons_succ] at hj
        obtain ⟨p, hpi, hpne', hres⟩ := hsel' j i hj
        have hpool : pool[i]? = some p := by
          by_cases hii : i = i0
          · subst hii
            have hset : (pool.set i sentinel)[i]? = some sentinel := by
              simp [List.getElem?_set_self, hi0lt]
            rw [hset] at hpi
            exact absurd (Option.some.inj hpi).symm hpne'
          · rw [List.getElem?_set_ne (fun hh => hii hh.symm)] at hpi
            exact hpi
        exact ⟨p, hpool, hpne', by simpa using hres⟩

/-- C3: with a 1-point pool and a 2-vertex mesh, `find_best_approximations`
does not fail when the remaining pool size drops to zero: it returns an
ApproximationMap whose second entry is the consumed sentinel row (the int64
wrap of the `np.inf` marker, `INT64_MIN` in each coordinate — an invalid
entry), instead of raising a PoolExhaustion error. -/
theorem pool_exhaustion_returns_sentinel :
    find_best_approximations [((0:ℚ), 0, 0)] [((0:ℚ), 0, 0), ((1:ℚ), 1, 1)]
        [((1:ℚ), 1, 1), ((1:ℚ), 1, 1)] =
      .ok ([((0:ℚ), 0, 0), sentinel], [sentinel]) := rfl

/-- C4: once the pool is exhausted, the consumed sentinel row *is* selected
as the minimum-distance candidate for a later vertex — nothing in the code
guards the selection against it.  For the pool `[(1,1,1)]` and two
vertices, the second projection step selects the sentinel slot. -/
theorem sentinel_selected_after_exhaustion :
    (projectStep [sentinel] ((3:ℚ), 3, 3) ((1:ℚ), 2, 2)).2 = sentinel ∧
    find_best_approximations [((1:ℚ), 1, 1)] [((1:ℚ), 1, 1), ((3:ℚ), 3, 3)]
        [((1:ℚ), 2, 2), ((1:ℚ), 2, 2)] =
      .ok ([((1:ℚ), 1, 1), sentinel], [sentinel]) := ⟨rfl, rfl⟩

/-- With the normal `(1,-1,0)` and a vertex at the origin, the dot-product
numerator of any point with equal first two coordinates cancels to 0. -/
theorem dotQ_cancel (p : Vec3) (hp : p.1 = p.2.1) :
    dotQ ((1:ℚ), -1, 0) p = 0 := by
  show (1:ℚ) * p.1 + (-1) * p.2.1 + 0 * p.2.2 = 0
  rw [hp]
  ring

/-- With the normal `(1,-1,0)` and a vertex at the origin, the plane
distance of any point with equal first two coordinates — including the
INT64_MIN sentinel row — is exactly 0. -/
theorem planeDist_cancel (p : Vec3) (hp : p.1 = p.2.1) :
    planeDist ((1:ℚ), -1, 0) ((0:ℚ), 0, 0) p = 0 := by
  rw [planeDist_ratio, dotQ_cancel p hp, dotQ_cancel ((0:ℚ), 0, 0) rfl]
  simp

/-- `np.argmin` on a two-element array with equal entries returns 0. -/
theorem argminIdx_pair_eq {β : Type} [LinearOrder β] (b : β) : argminIdx [b, b] = 0 := by
  show (if [b].getD (argminIdx [b]) b < b then argminIdx [b] + 1 else 0) = 0
  rw [if_neg (show ¬ ([b].getD (argminIdx [b]) b < b) from lt_irrefl b)]

/-- `np.argmin` on a two-element array whose second entry is strictly
smaller returns 1. -/
theorem argminIdx_pair_lt {β : Type} [LinearOrder β] (a b : β) (h : b < a) :
    argminIdx [a, b] = 1 := by
  show (if [b].getD (argminIdx [b]) a < a then argminIdx [b] + 1 else 0) = 1
  rw [if_pos (show [b].getD (argminIdx [b]) a < a from h)]
  rfl

/-- C2 counterexample: the pool `[(0,0,0),(5,5,5)]` with both mesh vertices
at the origin and both normals `(1,-1,0)`.  The consumed slot's sentinel
row is int64 `INT64_MIN` per coordinate, and for this normal its distance
cancels to exactly 0, so at the second step `np.argmin` ties every slot at
0 and re-selects the consumed slot 0: the second vertex is assigned the
sentinel row even though the genuine point `(5,5,5)` is still unconsumed
(it survives in the final pool).  The claim's "remaining pool point" is
therefore false for the code as written. -/
theorem projector_remaining_point_counterexample :
    find_best_approximations [((0:ℚ), 0, 0), ((5:ℚ), 5, 5)]
        [((0:ℚ), 0, 0), ((0:ℚ), 0, 0)] [((1:ℚ), -1, 0), ((1:ℚ), -1, 0)] =
      .ok ([((0:ℚ), 0, 0), sentinel], [sentinel, ((5:ℚ), 5, 5)]) ∧
    sentinel ∉ ([((0:ℚ), 0, 0), ((5:ℚ), 5, 5)] : List Vec3) := by
  constructor
  · have hd0 : planeDist ((1:ℚ), -1, 0) ((0:ℚ), 0, 0) ((0:ℚ), 0, 0) = 0 :=
      planeDist_cancel _ rfl
    have hd5 : planeDist ((1:ℚ), -1, 0) ((0:ℚ), 0, 0) ((5:ℚ), 5, 5) = 0 :=
      planeDist_cancel _ rfl
    have hds : planeDist ((1:ℚ), -1, 0) ((0:ℚ), 0, 0) sentinel = 0 :=
      planeDist_cancel _ rfl
    have h0 : (([((0:ℚ), 0, 0), ((5:ℚ), 5, 5)].map
        (planeDist ((1:ℚ), -1, 0) ((0:ℚ), 0, 0))).map (fun x : ℝ => |x|)) =
        [(0:ℝ), 0] := by
      show [|planeDist ((1:ℚ), -1, 0) ((0:ℚ), 0, 0) ((0:ℚ), 0, 0)|,
            |planeDist ((1:ℚ), -1, 0) ((0:ℚ), 0, 0) ((5:ℚ), 5, 5)|] = [(0:ℝ), 0]
      rw [hd0, hd5, abs_zero]
    have hstep0 : projectStep [((0:ℚ), 0, 0), ((5:ℚ), 5, 5)]
        ((0:ℚ), 0, 0) ((1:ℚ), -1, 0) = ([sentinel, ((5:ℚ), 5, 5)], ((0:ℚ), 0, 0)) := by
      simp only [projectStep, h0, argminIdx_pair_eq]
      rfl
    have hstep0a : (projectStep [((0:ℚ), 0, 0), ((5:ℚ), 5, 5)]
        ((0:ℚ), 0, 0) ((1:ℚ), -1, 0)).1 = [sentinel, ((5:ℚ), 5, 5)] := by rw [hstep0]
    have hstep0b : (projectStep [((0:ℚ), 0, 0), ((5:ℚ), 5, 5)]
        ((0:ℚ), 0, 0) ((1:ℚ), -1, 0)).2 = ((0:ℚ), 0, 0) := by rw [hstep0]
    have h1 : (([sentinel, ((5:ℚ), 5, 5)].map
        (planeDist ((1:ℚ), -1, 0) ((0:ℚ), 0, 0))).map (fun x : ℝ => |x|)) =
        [(0:ℝ), 0] := by
      show [|planeDist ((1:ℚ), -1, 0) ((0:ℚ), 0, 0) sentinel|,
            |planeDist ((1:ℚ), -1, 0) ((0:ℚ), 0, 0) ((5:ℚ), 5, 5)|] = [(0:ℝ), 0]
      rw [hds, hd5, abs_zero]
    have hstep1 : projectStep [sentinel, ((5:ℚ), 5, 5)]
        ((0:ℚ), 0, 0) ((1:ℚ), -1, 0) = ([sentinel, ((5:ℚ), 5, 5)], sentinel) := by
      simp only [projectStep, h1, argminIdx_pair_eq]
      rfl
    have hstep1a : (projectStep [sentinel, ((5:ℚ), 5, 5)]
        ((0:ℚ), 0, 0) ((1:ℚ), -1, 0)).1 = [sentinel, ((5:ℚ), 5, 5)] := by rw [hstep1]
    have hstep1b : (projectStep [sentinel, ((5:ℚ), 5, 5)]
        ((0:ℚ), 0, 0) ((1:ℚ), -1, 0)).2 = sentinel := by rw [hstep1]
    have hloop1 : projectLoop [sentinel, ((5:ℚ), 5, 5)]
        [(((0:ℚ), 0, 0), ((1:ℚ), -1, 0))] =
        .ok ([sentinel], [sentinel, ((5:ℚ), 5, 5)]) := by
      rw [projectLoop_cons, if_neg (by simp), hstep1a, hstep1b]
      rfl
    show projectLoop [((0:ℚ), 0, 0), ((5:ℚ), 5, 5)]
        [(((0:ℚ), 0, 0), ((1:ℚ), -1, 0)), (((0:ℚ), 0, 0), ((1:ℚ), -1, 0))] = _
    rw [projectLoop_cons, if_neg (by simp), hstep0a, hstep0b, hloop1]
  · intro hmem
    simp only [List.mem_cons, List.not_mem_nil, or_false] at hmem
    rcases hmem with h | h <;>
      (simp only [sentinel, Prod.mk.injEq] at h; norm_num at h)

/-- C2 amended: the projector processes vertices in mesh order; at step `j`
it selects, among ALL slots of the current pool array — already-consumed
slots are not excluded, they merely hold the INT64_MIN sentinel row and
compete with their recomputed distance — a slot minimizing the absolute
value of the spec's signed plane distance `d(p) = (n·p − n·v)/‖n‖` at that
vertex/normal pair (ties to the first-encountered minimum), stores its
current value in the vertex's result slot, and overwrites the slot with the
sentinel row. -/
theorem projector_step_minimizes_abs_plane_distance
    (pool verts normals : List Vec3)
    (resj poolj res fin : List Vec3) (j : ℕ)
    (hpool : pool ≠ [])
    (hvn : normals.length = verts.length)
    (hj : j < verts.length)
    (hpre : projectLoop pool ((verts.zip normals).take j) = .ok (resj, poolj))
    (hrun : find_best_approximations pool verts normals = .ok (res, fin)) :
    ∃ (i : ℕ) (p vj nj : Vec3),
      verts[j]? = some vj ∧ normals[j]? = some nj ∧
      i < poolj.length ∧ poolj[i]? = some p ∧
      projectStep poolj vj nj = (poolj.set i sentinel, p) ∧
      res[j]? = some p ∧
      projectLoop pool ((verts.zip normals).take (j + 1)) =
        .ok (resj ++ [p], poolj.set i sentinel) ∧
      (∀ (k : ℕ) (q : Vec3), poolj[k]? = some q →
        |specDist nj vj p| ≤ |specDist nj vj q|) ∧
      (∀ (k : ℕ) (q : Vec3), k < i → poolj[k]? = some q →
        |specDist nj vj p| < |specDist nj vj q|) := by
  have hzipl : (verts.zip normals).length = verts.length := by
    rw [List.length_zip, hvn, min_self]
  have hjz : j < (verts.zip normals).length := by rw [hzipl]; exact hj
  obtain ⟨vjnj, hvjnj⟩ : ∃ x, (verts.zip normals)[j]? = some x :=
    ⟨_, List.getElem?_eq_getElem hjz⟩
  obtain ⟨vj, nj⟩ := vjnj
  obtain ⟨hvj, hnj⟩ := List.getElem?_zip_eq_some.mp hvjnj
  have htakelen : ((verts.zip normals).take j).length = j := by
    rw [List.length_take]
    omega
  have hplen : poolj.length = pool.length :=
    (projectLoop_lengths _ _ _ _ hpre).2
  have hpne : poolj ≠ [] := by
    intro hE
    rw [hE] at hplen
    exact hpool (List.eq_nil_of_length_eq_zero hplen.symm)
  obtain ⟨i, p, hilt, hi, hstep, hmin, hminstrict⟩ :=
    projectStep_spec poolj vj nj hpne
  have hnemp : ¬ poolj.isEmpty := by
    cases poolj
    · exact absurd rfl hpne
    · simp
  have hone : projectLoop poolj [(vj, nj)] = .ok ([p], poolj.set i sentinel) := by
    have ha : (projectStep poolj vj nj).1 = poolj.set i sentinel := by rw [hstep]
    have hb : (projectStep poolj vj nj).2 = p := by rw [hstep]
    rw [projectLoop_cons, if_neg hnemp, ha, hb, projectLoop_nil]
  have htake1 : (verts.zip normals).take (j + 1) =
      (verts.zip normals).take j ++ [(vj, nj)] := by
    rw [List.take_succ, hvjnj]
    rfl
  have hploop1 : projectLoop pool ((verts.zip normals).take (j + 1)) =
      .ok (resj ++ [p], poolj.set i sentinel) := by
    rw [htake1, projectLoop_append _ _ _ _ _ hpre, hone]
  have hres : res[j]? = some p := by
    have hfull : (verts.zip normals).take (j + 1) ++ (verts.zip normals).drop (j + 1) =
        verts.zip normals := List.take_append_drop _ _
    have hrun' : projectLoop pool
        ((verts.zip normals).take (j + 1) ++ (verts.zip normals).drop (j + 1)) =
        .ok (res, fin) := by
      rw [hfull]
      exact hrun
    rw [projectLoop_append _ _ _ _ _ hploop1] at hrun'
    cases hrest : projectLoop (poolj.set i sentinel)
        ((verts.zip normals).drop (j + 1)) with
    | error e => rw [hrest] at hrun'; simp at hrun'
    | ok pr =>
      obtain ⟨r2, f2⟩ := pr
      rw [hrest] at hrun'
      simp only [Except.ok.injEq, Prod.mk.injEq] at hrun'
      obtain ⟨hr, _⟩ := hrun'
      have hrjlen : resj.length = j := by
        obtain ⟨hl, _⟩ := projectLoop_lengths _ _ _ _ hpre
        rw [hl, htakelen]
      rw [← hr, List.getElem?_append_left (by (try simp only [List.length_append,
          List.length_set, List.length_cons, List.length_nil]); omega),
        List.getElem?_append_right (by omega), hrjlen]
      simp
  refine ⟨i, p, vj, nj, hvj, hnj, hilt, hi, hstep, hres, hploop1, ?_, ?_⟩
  · intro k q hkq
    have := hmin k q hkq
    rwa [planeDist_eq_specDist, planeDist_eq_specDist] at this
  · intro k q hk hkq
    have := hminstrict k q hk hkq
    rwa [planeDist_eq_specDist, planeDist_eq_specDist] at this

/-- Witness for C2 amended: a one-point pool and a single vertex, at step 0. -/
theorem projector_step_minimizes_abs_plane_distance_witness :
    ∃ (i : ℕ) (p vj nj : Vec3),
      ([((0:ℚ), 0, 0)] : List Vec3)[0]? = some vj ∧
      ([((1:ℚ), 0, 0)] : List Vec3)[0]? = some nj ∧
      i < ([((0:ℚ), 0, 0)] : List Vec3).length ∧
      ([((0:ℚ), 0, 0)] : List Vec3)[i]? = some p ∧
      projectStep [((0:ℚ), 0, 0)] vj nj =
        (([((0:ℚ), 0, 0)] : List Vec3).set i sentinel, p) ∧
      ([((0:ℚ), 0, 0)] : List Vec3)[0]? = some p ∧
      projectLoop [((0:ℚ), 0, 0)]
          ((([((0:ℚ), 0, 0)] : List Vec3).zip [((1:ℚ), 0, 0)]).take (0 + 1)) =
        .ok ([] ++ [p], ([((0:ℚ), 0, 0)] : List Vec3).set i sentinel) ∧
      (∀ (k : ℕ) (q : Vec3), ([((0:ℚ), 0, 0)] : List Vec3)[k]? = some q →
        |specDist nj vj p| ≤ |specDist nj vj q|) ∧
      (∀ (k : ℕ) (q : Vec3), k < i →
        ([((0:ℚ), 0, 0)] : List Vec3)[k]? = some q →
        |specDist nj vj p| < |specDist nj vj q|) :=
  projector_step_minimizes_abs_plane_distance
    [((0:ℚ), 0, 0)] [((0:ℚ), 0, 0)] [((1:ℚ), 0, 0)]
    [] [((0:ℚ), 0, 0)] [((0:ℚ), 0, 0)] [sentinel] 0
    (by simp) (by simp) (by simp) rfl rfl

/-- C5 amended: when the sentinel row collides with no pool point, every
pool point strictly beats the sentinel row's (finite!) distance for every
vertex/normal pair of the mesh (no exact cancellation), the pool is at
least as large as the vertex count and every normal is nonzero, the
projector succeeds and returns one entry per vertex, drawn from
pairwise-distinct pool *slots*; the chosen points are pairwise distinct
whenever the pool's points are pairwise distinct.  (With duplicated points
in the pool, two vertices can receive equal points from different slots;
without the no-cancellation guard a consumed slot's sentinel row can win
the argmin and be assigned — see the counterexamples.) -/
theorem projector_injective_distinct_entries (pool verts normals : List Vec3)
    (hns : sentinel ∉ pool)
    (hlen : verts.length ≤ pool.length)
    (hvn : normals.length = verts.length)
    (hguard : ∀ nv ∈ normals, ∀ v ∈ verts, ∀ q ∈ pool,
      |dotQ nv q - dotQ nv v| < |dotQ nv sentinel - dotQ nv v|)
    (hnz : ∀ nv ∈ normals, normSq nv ≠ 0) :
    ∃ (res fin : List Vec3) (idx : List ℕ),
      find_best_approximations pool verts normals = .ok (res, fin) ∧
      res.length = verts.length ∧
      idx.Nodup ∧ idx.length = verts.length ∧
      (∀ (j i : ℕ), idx[j]? = some i →
        ∃ p : Vec3, pool[i]? = some p ∧ p ≠ sentinel ∧ res[j]? = some p) ∧
      (pool.Nodup → res.Nodup) := by
  have hzipl : (verts.zip normals).length = verts.length := by
    rw [List.length_zip, hvn, min_self]
  have hcount : (verts.zip normals).length ≤ countAvail pool := by
    rw [hzipl, countAvail_eq_length pool hns]
    exact hlen
  have hg : ∀ vn ∈ verts.zip normals, ∀ q ∈ pool, q ≠ sentinel →
      |planeDist vn.2 vn.1 q| < |planeDist vn.2 vn.1 sentinel| := by
    intro vn hvn' q hq _
    obtain ⟨hv, hn⟩ := List.of_mem_zip hvn'
    exact abs_planeDist_lt vn.2 vn.1 q sentinel (hnz vn.2 hn)
      (hguard vn.2 hn vn.1 hv q hq)
  obtain ⟨res, fin, idx, hrun, hrl, hfl, hnd, hil, hsel⟩ :=
    projectLoop_sound _ pool hcount hg
  refine ⟨res, fin, idx, hrun, by rw [hrl, hzipl], hnd, by rw [hil, hzipl], hsel, ?_⟩
  intro hpnd
  have hres_eq : res = idx.map (fun i => pool.getD i sentinel) := by
    apply List.ext_getElem?
    intro j
    rcases Nat.lt_or_ge j idx.length with hjlt | hjge
    · obtain ⟨i, hi⟩ : ∃ i, idx[j]? = some i := ⟨_, List.getElem?_eq_getElem hjlt⟩
      obtain ⟨p, hpi, _, hresj⟩ := hsel j i hi
      rw [hresj, List.getElem?_map, hi]
      simp only [Option.map_some']
      rw [List.getD_eq_getElem?_getD, hpi]
      rfl
    · rw [List.getElem?_eq_none, List.getElem?_eq_none]
      · simpa using hjge
      · rw [hrl, ← hil]
        exact hjge
  rw [hres_eq]
  refine List.Nodup.map_on ?_ hnd
  intro i hi i' hi' hff
  obtain ⟨j, hj⟩ := List.mem_iff_getElem?.mp hi
  obtain ⟨j', hj'⟩ := List.mem_iff_getElem?.mp hi'
  obtain ⟨p, hpi, _, _⟩ := hsel j i hj
  obtain ⟨p', hpi', _, _⟩ := hsel j' i' hj'
  have hh1 : pool.getD i sentinel = p := by
    rw [List.getD_eq_getElem?_getD, hpi]; rfl
  have hh2 : pool.getD i' sentinel = p' := by
    rw [List.getD_eq_getElem?_getD, hpi']; rfl
  rw [hh1, hh2] at hff
  subst hff
  have hii : pool[i]? = pool[i']? := by rw [hpi, hpi']
  exact List.getElem?_inj (List.getElem?_eq_some_iff.mp hpi).1 hpnd hii

/-- Witness for C5 amended: a 2-point pool, 2 vertices, normals `(1,0,0)`
(for which no pool point's distance cancels against the sentinel row's). -/
theorem projector_injective_distinct_entries_witness :
    ∃ (res fin : List Vec3) (idx : List ℕ),
      find_best_approximations [((0:ℚ), 0, 0), ((1:ℚ), 0, 0)]
          [((0:ℚ), 0, 0), ((1:ℚ), 0, 0)] [((1:ℚ), 0, 0), ((1:ℚ), 0, 0)] =
        .ok (res, fin) ∧
      res.length = ([((0:ℚ), 0, 0), ((1:ℚ), 0, 0)] : List Vec3).length ∧
      idx.Nodup ∧ idx.length = ([((0:ℚ), 0, 0), ((1:ℚ), 0, 0)] : List Vec3).length ∧
      (∀ (j i : ℕ), idx[j]? = some i →
        ∃ p : Vec3, ([((0:ℚ), 0, 0), ((1:ℚ), 0, 0)] : List Vec3)[i]? = some p ∧
          p ≠ sentinel ∧ res[j]? = some p) ∧
      (([((0:ℚ), 0, 0), ((1:ℚ), 0, 0)] : List Vec3).Nodup → res.Nodup) :=
  projector_injective_distinct_entries
    [((0:ℚ), 0, 0), ((1:ℚ), 0, 0)] [((0:ℚ), 0, 0), ((1:ℚ), 0, 0)]
    [((1:ℚ), 0, 0), ((1:ℚ), 0, 0)]
    (by
      intro hmem
      simp only [List.mem_cons, List.not_mem_nil, or_false] at hmem
      rcases hmem with h | h <;>
        (simp only [sentinel, Prod.mk.injEq] at h; norm_num at h))
    (by simp) (by simp)
    (by
      intro nv hnv v hv q hq
      simp only [List.mem_cons, List.not_mem_nil, or_false] at hnv hv hq
      apply abs_lt_abs_of_sq_lt_sq
      rcases hnv with rfl | rfl <;> rcases hv with rfl | rfl <;>
        rcases hq with rfl | rfl <;> norm_num [dotQ, sentinel])
    (by
      intro nv hnv
      simp only [List.mem_cons, List.not_mem_nil, or_false] at hnv
      rcases hnv with rfl | rfl <;>
        (show (1:ℚ) ^ 2 + 0 ^ 2 + 0 ^ 2 ≠ 0; norm_num))

/-- C5 counterexample: a pool containing the same point twice (which the
rounded voxel-space coordinate array can contain), two vertices.  Both
vertices are assigned the *same* point value (from two different slots), so
the ApproximationMap does not consist of V distinct original-cloud points. -/
theorem projector_distinct_points_counterexample :
    find_best_approximations [((0:ℚ), 0, 0), ((0:ℚ), 0, 0)]
        [((0:ℚ), 0, 0), ((2:ℚ), 2, 2)] [((1:ℚ), 1, 1), ((1:ℚ), 1, 1)] =
      .ok ([((0:ℚ), 0, 0), ((0:ℚ), 0, 0)], [sentinel, sentinel]) ∧
    ¬ ([((0:ℚ), 0, 0), ((0:ℚ), 0, 0)] : List Vec3).Nodup := by
  constructor
  · have h0 : (([((0:ℚ), 0, 0), ((0:ℚ), 0, 0)].map
        (planeDist ((1:ℚ), 1, 1) ((0:ℚ), 0, 0))).map (fun x : ℝ => |x|)) =
        [|planeDist ((1:ℚ), 1, 1) ((0:ℚ), 0, 0) ((0:ℚ), 0, 0)|,
         |planeDist ((1:ℚ), 1, 1) ((0:ℚ), 0, 0) ((0:ℚ), 0, 0)|] := rfl
    have hstep0 : projectStep [((0:ℚ), 0, 0), ((0:ℚ), 0, 0)]
        ((0:ℚ), 0, 0) ((1:ℚ), 1, 1) = ([sentinel, ((0:ℚ), 0, 0)], ((0:ℚ), 0, 0)) := by
      simp only [projectStep, h0, argminIdx_pair_eq]
      rfl
    have hstep0a : (projectStep [((0:ℚ), 0, 0), ((0:ℚ), 0, 0)]
        ((0:ℚ), 0, 0) ((1:ℚ), 1, 1)).1 = [sentinel, ((0:ℚ), 0, 0)] := by rw [hstep0]
    have hstep0b : (projectStep [((0:ℚ), 0, 0), ((0:ℚ), 0, 0)]
        ((0:ℚ), 0, 0) ((1:ℚ), 1, 1)).2 = ((0:ℚ), 0, 0) := by rw [hstep0]
    have hnz1 : normSq ((1:ℚ), 1, 1) ≠ 0 := by
      show (1:ℚ) ^ 2 + 1 ^ 2 + 1 ^ 2 ≠ 0
      norm_num
    have hcmp : |planeDist ((1:ℚ), 1, 1) ((2:ℚ), 2, 2) ((0:ℚ), 0, 0)| <
        |planeDist ((1:ℚ), 1, 1) ((2:ℚ), 2, 2) sentinel| := by
      apply abs_planeDist_lt _ _ _ _ hnz1
      apply abs_lt_abs_of_sq_lt_sq
      norm_num [dotQ, sentinel]
    have h1 : (([sentinel, ((0:ℚ), 0, 0)].map
        (planeDist ((1:ℚ), 1, 1) ((2:ℚ), 2, 2))).map (fun x : ℝ => |x|)) =
        [|planeDist ((1:ℚ), 1, 1) ((2:ℚ), 2, 2) sentinel|,
         |planeDist ((1:ℚ), 1, 1) ((2:ℚ), 2, 2) ((0:ℚ), 0, 0)|] := rfl
    have hstep1 : projectStep [sentinel, ((0:ℚ), 0, 0)]
        ((2:ℚ), 2, 2) ((1:ℚ), 1, 1) = ([sentinel, sentinel], ((0:ℚ), 0, 0)) := by
      simp only [projectStep, h1, argminIdx_pair_lt _ _ hcmp]
      rfl
    have hstep1a : (projectStep [sentinel, ((0:ℚ), 0, 0)]
        ((2:ℚ), 2, 2) ((1:ℚ), 1, 1)).1 = [sentinel, sentinel] := by rw [hstep1]
    have hstep1b : (projectStep [sentinel, ((0:ℚ), 0, 0)]
        ((2:ℚ), 2, 2) ((1:ℚ), 1, 1)).2 = ((0:ℚ), 0, 0) := by rw [hstep1]
    have hloop1 : projectLoop [sentinel, ((0:ℚ), 0, 0)]
        [(((2:ℚ), 2, 2), ((1:ℚ), 1, 1))] =
        .ok ([((0:ℚ), 0, 0)], [sentinel, sentinel]) := by
      rw [projectLoop_cons, if_neg (by simp), hstep1a, hstep1b]
      rfl
    show projectLoop [((0:ℚ), 0, 0), ((0:ℚ), 0, 0)]
        [(((0:ℚ), 0, 0), ((1:ℚ), 1, 1)), (((2:ℚ), 2, 2), ((1:ℚ), 1, 1))] = _
    rw [projectLoop_cons, if_neg (by simp), hstep0a, hstep0b, hloop1]
  · simp

/-- Unfolding `voxelizeE` on a non-empty cloud. -/
theorem voxelizeE_cons (p : Vec3) (ps : List Vec3) :
    voxelizeE (p :: ps) =
      match writeLoop (gridSize (amax3 (p :: ps)) (amin3 (p :: ps)))
          (((p :: ps).map (shiftPoint
            (_min_absolute_value (amax3 (p :: ps)) (amin3 (p :: ps))))).map roundV) ∅ with
      | (_, some e) => .error e
      | (occ, none) =>
        .ok { shift := _min_absolute_value (amax3 (p :: ps)) (amin3 (p :: ps)),
              size := gridSize (amax3 (p :: ps)) (amin3 (p :: ps)),
              ints := ((p :: ps).map (shiftPoint
                (_min_absolute_value (amax3 (p :: ps)) (amin3 (p :: ps))))).map roundV,
              occupied := occ,
              paddedSize := ((gridSize (amax3 (p :: ps)) (amin3 (p :: ps))).1 + 2,
                (gridSize (amax3 (p :: ps)) (amin3 (p :: ps))).2.1 + 2,
                (gridSize (amax3 (p :: ps)) (amin3 (p :: ps))).2.2 + 2),
              paddedOcc := occ.image (fun c => (c.1 + 1, c.2.1 + 1, c.2.2 + 1)) } := rfl

/-- The voxelization stage evaluated on the misaligned voxel-space cloud
`[(1/2,1/2,1/2), (4/5,4/5,4/5)]` (microns `(12.5,…)`, `(20,…)`): the shift
is `int(1/2) = 0`, the grid has shape 1 on each axis, the second point
rounds to index `(1,1,1)`, and the write raises `IndexError`. -/
theorem voxelizeE_misaligned :
    voxelizeE [((1:ℚ)/2, 1/2, 1/2), ((4:ℚ)/5, 4/5, 4/5)] = .error .indexError := by
  have hmx : amax3 [((1:ℚ)/2, 1/2, 1/2), ((4:ℚ)/5, 4/5, 4/5)] = ((4:ℚ)/5, 4/5, 4/5) := by
    simp only [amax3, List.foldl_cons, List.foldl_nil]
    norm_num [max_def]
  have hmn : amin3 [((1:ℚ)/2, 1/2, 1/2), ((4:ℚ)/5, 4/5, 4/5)] = ((1:ℚ)/2, 1/2, 1/2) := by
    simp only [amin3, List.foldl_cons, List.foldl_nil]
    norm_num [min_def]
  have habs : specShiftAxis ((4:ℚ)/5) ((1:ℚ)/2) = 1/2 := by
    unfold specShiftAxis
    rw [if_neg]
    rw [abs_of_pos (by norm_num), abs_of_pos (by norm_num)]
    norm_num
  have hs : _min_absolute_value ((4:ℚ)/5, 4/5, 4/5) ((1:ℚ)/2, 1/2, 1/2) = (0, 0, 0) := by
    simp only [_min_absolute_value, min_abs_pick_eq, habs]
    norm_num [intTrunc]
  have hshift : ([((1:ℚ)/2, 1/2, 1/2), ((4:ℚ)/5, 4/5, 4/5)].map (shiftPoint (0, 0, 0))) =
      [((1:ℚ)/2, 1/2, 1/2), ((4:ℚ)/5, 4/5, 4/5)] := by
    simp [shiftPoint_apply]
  have hre : roundEven ((4:ℚ)/5 - 1/2) = 0 := by
    norm_num [roundEven]
  have hsize : gridSize ((4:ℚ)/5, 4/5, 4/5) ((1:ℚ)/2, 1/2, 1/2) = (1, 1, 1) := by
    show ((roundEven ((4:ℚ)/5 - 1/2)).toNat + 1, (roundEven ((4:ℚ)/5 - 1/2)).toNat + 1,
      (roundEven ((4:ℚ)/5 - 1/2)).toNat + 1) = (1, 1, 1)
    rw [hre]
    rfl
  have hr1 : roundEven ((1:ℚ)/2) = 0 := by
    norm_num [roundEven, Int.even_iff]
  have hr2 : roundEven ((4:ℚ)/5) = 1 := by
    norm_num [roundEven]
  have hints : ([((1:ℚ)/2, 1/2, 1/2), ((4:ℚ)/5, 4/5, 4/5)].map roundV) =
      [((0:ℤ), 0, 0), ((1:ℤ), 1, 1)] := by
    show [(roundEven ((1:ℚ)/2), roundEven ((1:ℚ)/2), roundEven ((1:ℚ)/2)),
      (roundEven ((4:ℚ)/5), roundEven ((4:ℚ)/5), roundEven ((4:ℚ)/5))] =
      [((0:ℤ), 0, 0), ((1:ℤ), 1, 1)]
    rw [hr1, hr2]
  have hwl : writeLoop (1, 1, 1) [((0:ℤ), 0, 0), ((1:ℤ), 1, 1)] ∅ =
      ({((0:ℕ), (0:ℕ), (0:ℕ))}, some PyError.indexError) := by decide
  rw [voxelizeE_cons, hmx, hmn, hs, hshift, hsize, hints, hwl]

/-- C6: the pipeline does not perform explicit input validation.  (a) On a
finite non-empty cloud that is not aligned to the 25-micron grid,
voxelization itself fails with `IndexError` (a rounded index falls outside
the unpadded grid), contradicting "the coordinate transform and voxelization
stages never fail" for finite non-empty input.  (b) On an empty cloud the
failure is numpy's `ValueError` from `np.amax` (inside the extrema
computation), not an explicit InvalidInput rejection. -/
theorem alphashape_fails_on_valid_inputs :
    (∀ mc : MCOracle,
      alphashape mc [((25:ℚ)/2, 25/2, 25/2), ((20:ℚ), 20, 20)] = .error .indexError) ∧
    (∀ mc : MCOracle, alphashape mc [] = .error .valueError) := by
  constructor
  · intro mc
    have hvox : ([((25:ℚ)/2, 25/2, 25/2), ((20:ℚ), 20, 20)].map toVoxel) =
        [((1:ℚ)/2, 1/2, 1/2), ((4:ℚ)/5, 4/5, 4/5)] := by
      simp [toVoxel_apply]
      norm_num
    show (match voxelizeE ([((25:ℚ)/2, 25/2, 25/2), ((20:ℚ), 20, 20)].map toVoxel) with
      | .error e => (.error e : Except PyError AlphaOut)
      | .ok vox => _) = .error .indexError
    rw [hvox, voxelizeE_misaligned]
  · intro mc
    rfl

/-- C1: whenever the pipeline completes, `alphashape` returns `None` — the
`return result` statement on line 132 is commented out, so the computed
inverse-transformed ApproximationMap (`approx_coords`, line 92, the `approx`
field here) is never returned to the caller. -/
theorem alphashape_returns_none (mc : MCOracle) (coords : List Vec3) (st : AlphaOut)
    (h : alphashape mc coords = .ok st) : st.ret = none := by
  unfold alphashape at h
  split at h
  · simp at h
  · dsimp only [] at h
    split at h
    · simp at h
    · simp only [Except.ok.injEq] at h
      rw [← h]

/-- The voxelization stage evaluated on the origin one-point cloud. -/
theorem voxelizeE_origin :
    voxelizeE [((0:ℚ), 0, 0)] =
      .ok { shift := (0, 0, 0), size := (1, 1, 1), ints := [((0:ℤ), 0, 0)],
            occupied := {((0:ℕ), (0:ℕ), (0:ℕ))}, paddedSize := (3, 3, 3),
            paddedOcc := {((1:ℕ), (1:ℕ), (1:ℕ))} } := by
  have hs : _min_absolute_value ((0:ℚ), 0, 0) ((0:ℚ), 0, 0) = (0, 0, 0) := by
    simp only [_min_absolute_value, min_abs_pick_eq]
    norm_num [specShiftAxis, intTrunc]
  have hshift : ([((0:ℚ), 0, 0)].map (shiftPoint (0, 0, 0))) = [((0:ℚ), 0, 0)] := by
    simp [shiftPoint_apply]
  have hre0 : roundEven ((0:ℚ) - 0) = 0 := by norm_num [roundEven]
  have hre1 : roundEven (0:ℚ) = 0 := by norm_num [roundEven]
  have hsize : gridSize ((0:ℚ), 0, 0) ((0:ℚ), 0, 0) = (1, 1, 1) := by
    show ((roundEven ((0:ℚ) - 0)).toNat + 1, (roundEven ((0:ℚ) - 0)).toNat + 1,
      (roundEven ((0:ℚ) - 0)).toNat + 1) = (1, 1, 1)
    rw [hre0]
    rfl
  have hints : ([((0:ℚ), 0, 0)].map roundV) = [((0:ℤ), 0, 0)] := by
    show [(roundEven (0:ℚ), roundEven (0:ℚ), roundEven (0:ℚ))] = [((0:ℤ), 0, 0)]
    rw [hre1]
  rw [voxelizeE_cons,
    show amax3 [((0:ℚ), 0, 0)] = ((0:ℚ), 0, 0) from rfl,
    show amin3 [((0:ℚ), 0, 0)] = ((0:ℚ), 0, 0) from rfl,
    hs, hshift, hsize, hints,
    show writeLoop (1, 1, 1) [((0:ℤ), 0, 0)] ∅ =
      ({((0:ℕ), (0:ℕ), (0:ℕ))}, none) from by decide]
  show Except.ok
      ({ shift := ((0:ℤ), (0:ℤ), (0:ℤ)), size := (1, 1, 1), ints := [((0:ℤ), 0, 0)],
         occupied := {((0:ℕ), (0:ℕ), (0:ℕ))}, paddedSize := (1 + 2, 1 + 2, 1 + 2),
         paddedOcc := Finset.image (fun c => (c.1 + 1, c.2.1 + 1, c.2.2 + 1))
           {((0:ℕ), (0:ℕ), (0:ℕ))} } : VoxOut) = _
  rw [show Finset.image (fun c : Cell => (c.1 + 1, c.2.1 + 1, c.2.2 + 1))
      {((0:ℕ), (0:ℕ), (0:ℕ))} = {((1:ℕ), (1:ℕ), (1:ℕ))} from by decide]

/-- Witness for C1: a one-point cloud at the origin with the empty-mesh
oracle; the pipeline completes and the return value is `None`. -/
theorem alphashape_returns_none_witness :
    ∃ st : AlphaOut, alphashape mcEmpty [((0:ℚ), 0, 0)] = .ok st ∧ st.ret = none := by
  have hvox : ([((0:ℚ), 0, 0)].map toVoxel) = [((0:ℚ), 0, 0)] := by
    simp [toVoxel_apply]
  have hvoxE := voxelizeE_origin
  have heval : alphashape mcEmpty [((0:ℚ), 0, 0)] =
      .ok { vox := { shift := (0, 0, 0), size := (1, 1, 1), ints := [((0:ℤ), 0, 0)],
                     occupied := {((0:ℕ), (0:ℕ), (0:ℕ))}, paddedSize := (3, 3, 3),
                     paddedOcc := {((1:ℕ), (1:ℕ), (1:ℕ))} },
            pool := intPool [((0:ℤ), 0, 0)], best := [],
            finalPool := intPool [((0:ℤ), 0, 0)], approx := [], ret := none } := by
    show (match voxelizeE ([((0:ℚ), 0, 0)].map toVoxel) with
      | .error e => (.error e : Except PyError AlphaOut)
      | .ok vox => _) = _
    rw [hvox, hvoxE]
    rfl
  exact ⟨_, heval, alphashape_returns_none _ _ _ heval⟩

/-- A successful Python index lies within the axis length. -/
theorem pyIdx_lt (n : ℕ) (i : ℤ) (x : ℕ) (h : pyIdx n i = some x) : x < n := by
  unfold pyIdx at h
  split_ifs at h with h1 h2 <;> simp only [Option.some.injEq] at h <;> omega

/-- Specification of a completed write loop: the accumulated grid only
grows, every written cell lies inside the (unpadded) grid, and every input
point was written to a cell obtained from its Python-normalized indices. -/
theorem writeLoop_ok_spec (size : ℕ × ℕ × ℕ) :
    ∀ (ints : List (ℤ × ℤ × ℤ)) (acc occ : Finset Cell),
      writeLoop size ints acc = (occ, none) →
      acc ⊆ occ ∧
      (∀ c ∈ occ, c ∈ acc ∨ (c.1 < size.1 ∧ c.2.1 < size.2.1 ∧ c.2.2 < size.2.2)) ∧
      (∀ p ∈ ints, ∃ x y z, pyIdx size.1 p.1 = some x ∧ pyIdx size.2.1 p.2.1 = some y ∧
        pyIdx size.2.2 p.2.2 = some z ∧ (x, y, z) ∈ occ) := by
  intro ints
  induction ints with
  | nil =>
    intro acc occ h
    simp only [writeLoop, Prod.mk.injEq] at h
    obtain ⟨h1, _⟩ := h
    subst h1
    exact ⟨Finset.Subset.refl _, fun c hc => Or.inl hc, by simp⟩
  | cons c cs ih =>
    intro acc occ h
    rw [show writeLoop size (c :: cs) acc =
        (match writeCell size acc c with
         | .ok acc2 => writeLoop size cs acc2
         | .error e => (acc, some e)) from rfl] at h
    cases hwc : writeCell size acc c with
    | error e =>
      rw [hwc] at h
      simp at h
    | ok acc2 =>
      rw [hwc] at h
      unfold writeCell at hwc
      rcases hx : pyIdx size.1 c.1 with _ | x
      · rw [hx] at hwc; simp at hwc
      rcases hy : pyIdx size.2.1 c.2.1 with _ | y
      · rw [hx, hy] at hwc; simp at hwc
      rcases hz : pyIdx size.2.2 c.2.2 with _ | z
      · rw [hx, hy, hz] at hwc; simp at hwc
      rw [hx, hy, hz] at hwc
      simp only [Except.ok.injEq] at hwc
      subst hwc
      obtain ⟨hsub, hbound, hpts⟩ := ih (insert (x, y, z) acc) occ h
      refine ⟨(Finset.subset_insert _ _).trans hsub, ?_, ?_⟩
      · intro d hd
        rcases hbound d hd with hmem | hb
        · rcases Finset.mem_insert.mp hmem with rfl | hmem2
          · exact Or.inr ⟨pyIdx_lt _ _ _ hx, pyIdx_lt _ _ _ hy, pyIdx_lt _ _ _ hz⟩
          · exact Or.inl hmem2
        · exact Or.inr hb
      · intro p hp
        rcases List.mem_cons.mp hp with rfl | hp2
        · exact ⟨x, y, z, hx, hy, hz, hsub (Finset.mem_insert_self _ _)⟩
        · exact hpts p hp2

/-- C7 counterexample: the voxel-space cloud `[(1/2,1/2,1/2),(4/5,4/5,4/5)]`
is non-empty, yet voxelization raises `IndexError` instead of setting a cell
for each rounded point coordinate — the claim's universally-quantified
description of the stage fails. -/
theorem voxelizer_counterexample :
    voxelizeE [((1:ℚ)/2, 1/2, 1/2), ((4:ℚ)/5, 4/5, 4/5)] = .error .indexError :=
  voxelizeE_misaligned

/-- C7 amended: for every non-empty voxel-space cloud *for which the write
loop completes* (no rounded shifted coordinate falls outside the Python
index range), the grid has per-axis size `round(max-min)+1`, every cell set
to 1 lies inside the unpadded grid, each rounded point coordinate indexes
(after Python index normalization) a cell that is set to 1 (duplicates
collapse in the cell set without error), the grid is padded with exactly one
layer on every face (sizes grow by 2, cells shift by +1), and every
occupied index of the padded grid is strictly inside it. -/
theorem voxelizer_padded_grid (cloud : List Vec3) (out : VoxOut)
    (hne : cloud ≠ [])
    (h : voxelizeE cloud = .ok out) :
    out.size = gridSize (amax3 cloud) (amin3 cloud) ∧
    out.paddedSize = (out.size.1 + 2, out.size.2.1 + 2, out.size.2.2 + 2) ∧
    out.paddedOcc = out.occupied.image (fun c => (c.1 + 1, c.2.1 + 1, c.2.2 + 1)) ∧
    (∀ c ∈ out.occupied, c.1 < out.size.1 ∧ c.2.1 < out.size.2.1 ∧ c.2.2 < out.size.2.2) ∧
    (∀ c ∈ out.paddedOcc, (0 < c.1 ∧ c.1 < out.paddedSize.1 - 1) ∧
      (0 < c.2.1 ∧ c.2.1 < out.paddedSize.2.1 - 1) ∧
      (0 < c.2.2 ∧ c.2.2 < out.paddedSize.2.2 - 1)) ∧
    (∀ p ∈ out.ints, ∃ x y z, pyIdx out.size.1 p.1 = some x ∧
      pyIdx out.size.2.1 p.2.1 = some y ∧ pyIdx out.size.2.2 p.2.2 = some z ∧
      (x, y, z) ∈ out.occupied) := by
  match cloud, hne with
  | p :: ps, _ =>
    rw [voxelizeE_cons] at h
    cases hwl : writeLoop (gridSize (amax3 (p :: ps)) (amin3 (p :: ps)))
        (((p :: ps).map (shiftPoint
          (_min_absolute_value (amax3 (p :: ps)) (amin3 (p :: ps))))).map roundV) ∅ with
    | mk occ err =>
      rw [hwl] at h
      cases err with
      | some e => simp at h
      | none =>
        simp only [Except.ok.injEq] at h
        subst h
        obtain ⟨_, hbound, hpts⟩ := writeLoop_ok_spec _ _ _ _ hwl
        have hocc : ∀ c ∈ occ,
            c.1 < (gridSize (amax3 (p :: ps)) (amin3 (p :: ps))).1 ∧
            c.2.1 < (gridSize (amax3 (p :: ps)) (amin3 (p :: ps))).2.1 ∧
            c.2.2 < (gridSize (amax3 (p :: ps)) (amin3 (p :: ps))).2.2 := by
          intro c hc
          rcases hbound c hc with hmem | hb
          · simp at hmem
          · exact hb
        refine ⟨rfl, rfl, rfl, hocc, ?_, hpts⟩
        dsimp only
        intro c hc
        obtain ⟨d, hd, rfl⟩ := Finset.mem_image.mp hc
        obtain ⟨h1, h2, h3⟩ := hocc d hd
        dsimp only
        exact ⟨⟨by omega, by omega⟩, ⟨by omega, by omega⟩, ⟨by omega, by omega⟩⟩

/-- Witness for C7 amended: the origin one-point cloud. -/
theorem voxelizer_padded_grid_witness :
    ∃ out : VoxOut, voxelizeE [((0:ℚ), 0, 0)] = .ok out ∧
      out.size = gridSize (amax3 [((0:ℚ), 0, 0)]) (amin3 [((0:ℚ), 0, 0)]) ∧
      out.paddedSize = (out.size.1 + 2, out.size.2.1 + 2, out.size.2.2 + 2) ∧
      out.paddedOcc = out.occupied.image (fun c => (c.1 + 1, c.2.1 + 1, c.2.2 + 1)) ∧
      (∀ c ∈ out.occupied,
        c.1 < out.size.1 ∧ c.2.1 < out.size.2.1 ∧ c.2.2 < out.size.2.2) ∧
      (∀ c ∈ out.paddedOcc, (0 < c.1 ∧ c.1 < out.paddedSize.1 - 1) ∧
        (0 < c.2.1 ∧ c.2.1 < out.paddedSize.2.1 - 1) ∧
        (0 < c.2.2 ∧ c.2.2 < out.paddedSize.2.2 - 1)) ∧
      (∀ p ∈ out.ints, ∃ x y z, pyIdx out.size.1 p.1 = some x ∧
        pyIdx out.size.2.1 p.2.1 = some y ∧ pyIdx out.size.2.2 p.2.2 = some z ∧
        (x, y, z) ∈ out.occupied) :=
  ⟨_, voxelizeE_origin,
    voxelizer_padded_grid [((0:ℚ), 0, 0)] _ (by simp) voxelizeE_origin⟩

theorem heap_getElem_append (l : List PyArr) (a : PyArr) (i : ℕ) (hi : i < l.length) :
    (l ++ [a])[i]? = l[i]? :=
  List.getElem?_append_left hi

/-- C10: running `alphashape` never mutates any array that existed in the
heap before the call — in particular the caller's coordinate array and the
six tensor-component arrays.  The two in-place mutations of the run (the
voxel-grid writes of line 79 and the pool consumption of line 167) target
arrays allocated during the run (`np.hstack`, the matrix products,
`np.zeros` and `.astype(int)` all allocate fresh arrays), so every
pre-existing heap reference reads back unchanged, on every control path
(success or raised exception). -/
theorem alphashape_leaves_caller_arrays_unchanged (mc : MCOracle) (h0 : Heap) (r : ℕ)
    (i : ℕ) (hi : i < h0.arrs.length) :
    ((alphashapeH mc h0 r).1).arrs[i]? = h0.arrs[i]? := by
  unfold alphashapeH
  cases hrc : readCoords h0 r with
  | none => rfl
  | some coords =>
    dsimp only [Heap.alloc, Heap.write]
    by_cases hemp : coords.isEmpty
    · rw [if_pos hemp]
      dsimp only
      rw [heap_getElem_append _ _ _ (by (try simp only [List.length_append, List.length_set, List.length_cons, List.length_nil]); omega),
        heap_getElem_append _ _ _ (by (try simp only [List.length_append, List.length_set, List.length_cons, List.length_nil]); omega)]
    · rw [if_neg hemp]
      cases hwr : (writeLoop (gridSize (amax3 (coords.map toVoxel))
          (amin3 (coords.map toVoxel)))
          (((coords.map toVoxel).map (shiftPoint
            (_min_absolute_value (amax3 (coords.map toVoxel))
              (amin3 (coords.map toVoxel))))).map roundV) ∅).2 with
      | some e =>
        dsimp only
        rw [List.getElem?_set_ne (by (try simp only [List.length_append, List.length_set, List.length_cons, List.length_nil]); omega),
          heap_getElem_append _ _ _ (by (try simp only [List.length_append, List.length_set, List.length_cons, List.length_nil]); omega),
          heap_getElem_append _ _ _ (by (try simp only [List.length_append, List.length_set, List.length_cons, List.length_nil]); omega),
          heap_getElem_append _ _ _ (by (try simp only [List.length_append, List.length_set, List.length_cons, List.length_nil]); omega),
          heap_getElem_append _ _ _ (by (try simp only [List.length_append, List.length_set, List.length_cons, List.length_nil]); omega),
          heap_getElem_append _ _ _ (by (try simp only [List.length_append, List.length_set, List.length_cons, List.length_nil]); omega)]
      | none =>
        dsimp only
        cases hfb : find_best_approximations
            (intPool (((coords.map toVoxel).map (shiftPoint
              (_min_absolute_value (amax3 (coords.map toVoxel))
                (amin3 (coords.map toVoxel))))).map roundV))
            (mc ((gridSize (amax3 (coords.map toVoxel)) (amin3 (coords.map toVoxel))).1 + 2,
              (gridSize (amax3 (coords.map toVoxel)) (amin3 (coords.map toVoxel))).2.1 + 2,
              (gridSize (amax3 (coords.map toVoxel)) (amin3 (coords.map toVoxel))).2.2 + 2)
              ((writeLoop (gridSize (amax3 (coords.map toVoxel)) (amin3 (coords.map toVoxel)))
                (((coords.map toVoxel).map (shiftPoint
                  (_min_absolute_value (amax3 (coords.map toVoxel))
                    (amin3 (coords.map toVoxel))))).map roundV) ∅).1.image
                (fun c => (c.1 + 1, c.2.1 + 1, c.2.2 + 1)))).1
            (mc ((gridSize (amax3 (coords.map toVoxel)) (amin3 (coords.map toVoxel))).1 + 2,
              (gridSize (amax3 (coords.map toVoxel)) (amin3 (coords.map toVoxel))).2.1 + 2,
              (gridSize (amax3 (coords.map toVoxel)) (amin3 (coords.map toVoxel))).2.2 + 2)
              ((writeLoop (gridSize (amax3 (coords.map toVoxel)) (amin3 (coords.map toVoxel)))
                (((coords.map toVoxel).map (shiftPoint
                  (_min_absolute_value (amax3 (coords.map toVoxel))
                    (amin3 (coords.map toVoxel))))).map roundV) ∅).1.image
                (fun c => (c.1 + 1, c.2.1 + 1, c.2.2 + 1)))).2 with
      | error e =>
        dsimp only
        rw [heap_getElem_append _ _ _ (by (try simp only [List.length_append, List.length_set, List.length_cons, List.length_nil]); omega),
          heap_getElem_append _ _ _ (by (try simp only [List.length_append, List.length_set, List.length_cons, List.length_nil]); omega),
          heap_getElem_append _ _ _ (by (try simp only [List.length_append, List.length_set, List.length_cons, List.length_nil]); omega),
          List.getElem?_set_ne (by (try simp only [List.length_append, List.length_set, List.length_cons, List.length_nil]); omega),
          heap_getElem_append _ _ _ (by (try simp only [List.length_append, List.length_set, List.length_cons, List.length_nil]); omega),
          heap_getElem_append _ _ _ (by (try simp only [List.length_append, List.length_set, List.length_cons, List.length_nil]); omega),
          heap_getElem_append _ _ _ (by (try simp only [List.length_append, List.length_set, List.length_cons, List.length_nil]); omega),
          heap_getElem_append _ _ _ (by (try simp only [List.length_append, List.length_set, List.length_cons, List.length_nil]); omega),
          heap_getElem_append _ _ _ (by (try simp only [List.length_append, List.length_set, List.length_cons, List.length_nil]); omega)]
      | ok pr =>
        obtain ⟨best, fin⟩ := pr
        dsimp only
        rw [heap_getElem_append _ _ _ (by (try simp only [List.length_append, List.length_set, List.length_cons, List.length_nil]); omega),
          heap_getElem_append _ _ _ (by (try simp only [List.length_append, List.length_set, List.length_cons, List.length_nil]); omega),
          heap_getElem_append _ _ _ (by (try simp only [List.length_append, List.length_set, List.length_cons, List.length_nil]); omega),
          heap_getElem_append _ _ _ (by (try simp only [List.length_append, List.length_set, List.length_cons, List.length_nil]); omega),
          List.getElem?_set_ne (by (try simp only [List.length_append, List.length_set, List.length_cons, List.length_nil]); omega),
          heap_getElem_append _ _ _ (by (try simp only [List.length_append, List.length_set, List.length_cons, List.length_nil]); omega),
          heap_getElem_append _ _ _ (by (try simp only [List.length_append, List.length_set, List.length_cons, List.length_nil]); omega),
          heap_getElem_append _ _ _ (by (try simp only [List.length_append, List.length_set, List.length_cons, List.length_nil]); omega),
          heap_getElem_append _ _ _ (by (try simp only [List.length_append, List.length_set, List.length_cons, List.length_nil]); omega),
          List.getElem?_set_ne (by (try simp only [List.length_append, List.length_set, List.length_cons, List.length_nil]); omega),
          heap_getElem_append _ _ _ (by (try simp only [List.length_append, List.length_set, List.length_cons, List.length_nil]); omega),
          heap_getElem_append _ _ _ (by (try simp only [List.length_append, List.length_set, List.length_cons, List.length_nil]); omega),
          heap_getElem_append _ _ _ (by (try simp only [List.length_append, List.length_set, List.length_cons, List.length_nil]); omega),
          heap_getElem_append _ _ _ (by (try simp only [List.length_append, List.length_set, List.length_cons, List.length_nil]); omega),
          heap_getElem_append _ _ _ (by (try simp only [List.length_append, List.length_set, List.length_cons, List.length_nil]); omega)]

/-- Witness for C10: a heap holding only the caller's 1×3 coordinate array. -/
theorem alphashape_leaves_caller_arrays_unchanged_witness :
    ((alphashapeH mcEmpty ⟨[PyArr.m2 [[0, 0, 0]]]⟩ 0).1).arrs[0]? =
      (⟨[PyArr.m2 [[0, 0, 0]]]⟩ : Heap).arrs[0]? :=
  alphashape_leaves_caller_arrays_unchanged mcEmpty ⟨[PyArr.m2 [[0, 0, 0]]]⟩ 0 0 (by simp)

end Postprocessing
